import Mathlib

/-!
# Clock service (`chrony_api_app.go`): configuration store, parsers and caches

A shallow embedding of the Go program.  A Go `string` is modelled as the list of
its characters (`Str`), i.e. the development covers strings that are valid UTF-8
text; `strings.Split`, `strings.Join`, `strings.HasPrefix` and
`strings.Contains` act on such strings exactly as the list operations below.
-/

namespace ClockService

/-- A Go string holding valid UTF-8 text, as the list of its characters. -/
abbrev Str := List Char

/-! ## The Go library functions used by the program -/

/-- The predicate `unicode.IsSpace`: the Latin-1 spaces and the code points with the
Unicode `White_Space` property. -/
def isSpace (c : Char) : Bool :=
  let n := c.toNat
  (9 ≤ n && n ≤ 13) || n == 32 || n == 0x85 || n == 0xA0 || n == 0x1680 ||
  (0x2000 ≤ n && n ≤ 0x200A) || n == 0x2028 || n == 0x2029 || n == 0x202F ||
  n == 0x205F || n == 0x3000

/-- The function `strings.TrimSpace`: drop leading and trailing white space. -/
def trimSpace (s : Str) : Str :=
  (s.dropWhile isSpace).rdropWhile isSpace

/-- The function `strings.HasPrefix`. -/
def hasPrefix (s pre : Str) : Bool :=
  pre.isPrefixOf s

/-- The function `strings.Contains`: `sub` occurs somewhere inside `s`. -/
def contains : Str → Str → Bool
  | [], sub => sub.isPrefixOf []
  | c :: cs, sub => sub.isPrefixOf (c :: cs) || contains cs sub

/-- The call `strings.Split(s, "\n")`: the pieces of `s` between line feeds. -/
def splitLines (s : Str) : List Str :=
  s.splitOn '\n'

/-- The call `strings.Join(lines, "\n")`. -/
def joinLines (lines : List Str) : Str :=
  List.intercalate ['\n'] lines

/-- The function `strings.Fields`: the maximal runs of characters that are not
white space. -/
def fields (s : Str) : List Str :=
  (s.splitOnP isSpace).filter (fun t => !t.isEmpty)

/-! ## The world the program runs in -/

/-- An action of the program on its surroundings. -/
inductive Effect where
  /-- The call `ioutil.WriteFile(CHRONY_CONF_PATH, content, 0644)`. -/
  | writeConf (content : Str)
  /-- The command `chronyc args...` is run. -/
  | chronyc (args : List Str)
  /-- The command `pkill chronyd` is run. -/
  | pkill
  /-- The command `chronyd -f /etc/chrony/chrony.conf` is started. -/
  | startChronyd
  deriving DecidableEq, Repr

/-- The dynamic value (`interface{}`) held by a cache entry. -/
inductive Value where
  /-- The zero value of `interface{}`. -/
  | null
  /-- A `map[string]string`. -/
  | mapping (m : List (Str × Str))
  /-- A `[]map[string]string`. -/
  | records (rs : List (List (Str × Str)))
  /-- A `bool`. -/
  | flag (b : Bool)
  deriving DecidableEq, Repr

/-- The struct `CachedData` without its lock and without `fetchData`, which is fixed
when the cache is created and is passed to `Get` instead.  Instants and durations are
counted in nanoseconds; instant `0` is the zero `time.Time{}`. -/
structure CachedData (α : Type) where
  /-- The stored value. -/
  Data : α
  /-- The instant of the last refresh. -/
  Timestamp : Int
  /-- The time to live, a `time.Duration`. -/
  TTL : Int
  deriving DecidableEq, Repr

/-- The global cache variables of the program. -/
structure Caches where
  /-- The global `trackingCache`, `none` for the nil pointer. -/
  trackingCache : Option (CachedData Value)
  /-- The global `sourcesCache`. -/
  sourcesCache : Option (CachedData Value)
  /-- The global `activityCache`. -/
  activityCache : Option (CachedData Value)
  /-- The global `serverModeCache`. -/
  serverModeCache : Option (CachedData Value)
  /-- The global `clientsCache`. -/
  clientsCache : Option (CachedData Value)
  /-- The global `cacheInitialized`. -/
  cacheInitialized : Bool
  deriving DecidableEq, Repr

/-- Everything the program reads or changes: the configuration file, the processes
it launches, the clock, its global variables, and the record of its actions. -/
structure World where
  /-- The content of `/etc/chrony/chrony.conf`; `none` when the file cannot be read. -/
  conf : Option Str
  /-- Whether `ioutil.WriteFile` on the configuration file succeeds. -/
  confWritable : Bool
  /-- Whether starting `chronyd` succeeds. -/
  chronydStarts : Bool
  /-- The combined output of `chronyc args`, or the text of its error, given the
  actions performed before. -/
  chronycReply : List Effect → List Str → Except Str Str
  /-- The successive readings of the clock. -/
  clock : Nat → Int
  /-- The number of clock readings made so far. -/
  clockReads : Nat
  /-- The global cache variables. -/
  caches : Caches
  /-- The global `permissionCheckEnabled`. -/
  permissionCheckEnabled : Bool
  /-- The actions performed so far, oldest first. -/
  trace : List Effect

/-- The call `ioutil.WriteFile(CHRONY_CONF_PATH, content, 0644)`: it is recorded, and
when it succeeds the file holds `content`. -/
def writeConf (content : Str) (w : World) : Bool × World :=
  let w1 := { w with trace := w.trace ++ [Effect.writeConf content] }
  if w.confWritable then (true, { w1 with conf := some content }) else (false, w1)

/-! ## Config store: the server list -/

/-- The text `updateChronyConfServers` writes, given the list and the text it read. -/
def updateServersContent (servers : List Str) (content : Str) : Str :=
  let lines := splitLines content
  -- the loop keeping every line that is not a server directive
  let newLines := lines.filter (fun line => !hasPrefix (trimSpace line) "server ".toList)
  -- the loop adding the new server lines
  let newLines := newLines ++
    servers.map (fun server => "server ".toList ++ server ++ " iburst".toList)
  -- the empty line at the end
  let newLines := newLines ++ [[]]
  joinLines newLines

/-- The function `updateChronyConfServers`; the result is `true` when it returns a nil
error. -/
def updateChronyConfServers (servers : List Str) (w : World) : Bool × World :=
  match w.conf with
  | none => (false, w)
  | some content => writeConf (updateServersContent servers content) w

/-- The server named on one line of the configuration file, if the line is a server
directive with at least two fields. -/
def serverOfLine (line : Str) : Option Str :=
  let trimmed := trimSpace line
  if hasPrefix trimmed "server ".toList then
    let parts := fields trimmed
    if 2 ≤ parts.length then parts.get? 1 else none
  else none

/-- The list `getConfiguredServers` extracts from the text of the file. -/
def configuredServersOf (content : Str) : List Str :=
  (splitLines content).filterMap serverOfLine

/-- The function `getConfiguredServers`. -/
def getConfiguredServers (w : World) : List Str :=
  match w.conf with
  | none => []
  | some content => configuredServersOf content

/-! ## Restart coordinator -/

/-- The function `restartChrony`: `pkill chronyd`, whose failure is ignored, then
`chronyd -f` on the configuration file; the result is whether the start succeeded. -/
def restartChrony (w : World) : Bool × World :=
  let w1 := { w with trace := w.trace ++ [Effect.pkill] }
  let w2 := { w1 with trace := w1.trace ++ [Effect.startChronyd] }
  (w.chronydStarts, w2)

/-! ## Config store: server mode -/

/-- One round of the loop of `setServerModeStatus`: `acc` holds `newLines` and
`found`. -/
def serverModeStep (enabled : Bool) (acc : List Str × Bool) (line : Str) :
    List Str × Bool :=
  let trimmed := trimSpace line
  if contains trimmed "allow 0.0.0.0/0".toList then
    if enabled then
      if hasPrefix trimmed "#".toList then (acc.1 ++ ["allow 0.0.0.0/0".toList], true)
      else (acc.1 ++ [line], true)
    else
      if !hasPrefix trimmed "#".toList then (acc.1 ++ ["#allow 0.0.0.0/0".toList], true)
      else (acc.1 ++ [line], true)
  else (acc.1 ++ [line], acc.2)

/-- The text `setServerModeStatus` writes, given the flag and the text it read. -/
def serverModeContent (enabled : Bool) (content : Str) : Str :=
  let lines := splitLines content
  let (newLines, found) := lines.foldl (serverModeStep enabled) ([], false)
  let newLines := if enabled && !found then newLines ++ ["allow 0.0.0.0/0".toList] else newLines
  joinLines newLines

/-- The function `setServerModeStatus`. -/
def setServerModeStatus (enabled : Bool) (w : World) : Bool × World :=
  match w.conf with
  | none => (false, w)
  | some content =>
    match writeConf (serverModeContent enabled content) w with
    | (false, w1) => (false, w1)
    | (true, w1) => restartChrony w1

/-- The function `getServerModeStatus`. -/
def getServerModeStatus (w : World) : Bool :=
  match w.conf with
  | none => false
  | some content =>
    (splitLines content).any (fun line =>
      decide (trimSpace line ≠ []) && hasPrefix (trimSpace line) "allow".toList)

/-- The line that one round of the loop of `setServerModeStatus` appends. -/
def serverModeLine (enabled : Bool) (line : Str) : Str :=
  (serverModeStep enabled ([], false) line).1.getLastD line

/-- Whether a line mentions the rule `allow 0.0.0.0/0`, the test of the loop of
`setServerModeStatus`. -/
def mentionsAllowAll (line : Str) : Bool :=
  contains (trimSpace line) "allow 0.0.0.0/0".toList

/-- The lines `setServerModeStatus` writes, given the lines it read. -/
def serverModeLines (enabled : Bool) (lines : List Str) : List Str :=
  if enabled && !lines.any mentionsAllowAll then
    lines.map (serverModeLine enabled) ++ ["allow 0.0.0.0/0".toList]
  else lines.map (serverModeLine enabled)

/-! ## Output parsers -/

/-- A `map[string]string`, as the list of its entries; `mapSet` keeps the keys distinct
and `List.lookup` reads a key. -/
abbrev StrMap := List (Str × Str)

/-- The assignment `m[key] = value`. -/
def mapSet : StrMap → Str → Str → StrMap
  | [], key, value => [(key, value)]
  | (k, v) :: rest, key, value =>
    if k = key then (k, value) :: rest else (k, v) :: mapSet rest key value

/-- A run-time panic of the Go program. -/
inductive Panic where
  /-- The panic `index out of range [index] with length length`. -/
  | indexOutOfRange (index length : Nat)
  /-- The panic on the dereference of a nil pointer. -/
  | nilDereference
  deriving DecidableEq, Repr

deriving instance DecidableEq for Except

/-- The indexing `parts[i]`, which panics when `i` is not below `len(parts)`. -/
def index (parts : List Str) (i : Nat) : Except Panic Str :=
  match parts.get? i with
  | some p => Except.ok p
  | none => Except.error (Panic.indexOutOfRange i parts.length)

/-- The class `\s` of Go regular expressions: tab, line feed, form feed, carriage
return and space. -/
def isReSpace (c : Char) : Bool :=
  c == '\t' || c == '\n' || c == '\x0c' || c == '\r' || c == ' '

/-- The call ``regexp.MustCompile(`\s+`).Split(s, -1)``: the pieces of `s` between the
maximal runs of `\s` characters, the piece before a leading run and the piece after a
trailing run included. -/
def reSplitSpaces : Str → List Str
  | [] => [[]]
  | c :: cs =>
    if isReSpace c then
      match cs with
      | [] => [[], []]
      | d :: _ => if isReSpace d then reSplitSpaces cs else [] :: reSplitSpaces cs
    else
      match reSplitSpaces cs with
      | [] => [[c]]
      | p :: ps => (c :: p) :: ps

/-- The first submatch of ``regexp.MustCompile(`^([+-]\d+ms)`).FindStringSubmatch(s)``,
`none` when there is no match: a sign, then the whole run of decimal digits that
follows, which must not be empty, then `ms`. -/
def offsetMatch (s : Str) : Option Str :=
  match s with
  | [] => none
  | sign :: rest =>
    if sign = '+' ∨ sign = '-' then
      let digits := rest.takeWhile Char.isDigit
      if digits ≠ [] ∧ hasPrefix (rest.dropWhile Char.isDigit) "ms".toList then
        some (sign :: digits ++ "ms".toList)
      else none
    else none

/-- The separator line of the `sources` and `clients` reports: 79 signs `=`. -/
def separatorLine : Str :=
  "===============================================================================".toList

/-- The parts into which `parseSourcesOutput` cuts a data line. -/
def sourceParts (line : Str) : List Str :=
  reSplitSpaces (trimSpace line)

/-- The part of the loop body of `parseSourcesOutput` that handles a data line: the
record of the line, `none` when the line has fewer than six parts, or a panic. -/
def parseSourceLine (line : Str) : Except Panic (Option StrMap) :=
  let parts := sourceParts line
  if 6 ≤ parts.length then do
    let source : StrMap := [
      ("state".toList, ← index parts 0),
      ("name".toList, ← index parts 1),
      ("stratum".toList, ← index parts 2),
      ("poll".toList, ← index parts 3),
      ("reach".toList, ← index parts 4),
      ("lastrx".toList, ← index parts 5),
      ("raw".toList, line)]
    if 6 ≤ parts.length then
      let offsetPart ← index parts 6
      let source :=
        match offsetMatch offsetPart with
        | some m => mapSet source "offset".toList m
        | none => source
      if 8 ≤ parts.length then
        let delayPart ← index parts 8
        match offsetMatch delayPart with
        | some m => return some (mapSet source "delay".toList m)
        | none => return some source
      else return some source
    else return some source
  else return none

/-- One round of the loop of `parseSourcesOutput`: `acc` holds `headerFound` and
`sources`. -/
def sourcesStep (acc : Bool × List StrMap) (line : Str) :
    Except Panic (Bool × List StrMap) :=
  if !acc.1 then
    if trimSpace line = separatorLine then Except.ok (true, acc.2) else Except.ok acc
  else if trimSpace line = [] ∨ trimSpace line = separatorLine then Except.ok acc
  else do
    match ← parseSourceLine line with
    | some source => return (acc.1, acc.2 ++ [source])
    | none => return acc

/-- The function `parseSourcesOutput`. -/
def parseSourcesOutput (output : Str) : Except Panic (List StrMap) := do
  let acc ← (splitLines output).foldlM sourcesStep (false, [])
  return acc.2

/-- One round of the loop of `parseActivityOutput`. -/
def activityStep (result : StrMap) (line : Str) : StrMap :=
  if contains line "sources".toList then
    -- `len(parts) >= 3`, `count := parts[0]`, `status := parts[2]`
    match fields line with
    | count :: _ :: status :: _ =>
      if status = "online".toList then mapSet result "ok_count".toList count
      else if status = "offline".toList then mapSet result "failed_count".toList count
      else if status = "doing burst (return to online)".toList then
        mapSet result "bogus_count".toList count
      else if status = "doing burst (return to offline)".toList then
        mapSet result "timeout_count".toList count
      else result
    | _ => result
  else result

/-- The function `parseActivityOutput`. -/
def parseActivityOutput (output : Str) : StrMap :=
  (splitLines output).foldl activityStep []

/-! ## Freshness cache -/

/-- The largest `time.Duration`, `1<<63 - 1` nanoseconds (about 292 years). -/
def maxDuration : Int := 2 ^ 63 - 1

/-- The smallest `time.Duration`, `-1 << 63` nanoseconds. -/
def minDuration : Int := -(2 ^ 63)

/-- The value of `time.Since(t)` when the clock reads `now`: the difference, replaced
by the nearest `time.Duration` when it is out of range. -/
def timeSince (now t : Int) : Int :=
  if maxDuration < now - t then maxDuration
  else if now - t < minDuration then minDuration
  else now - t

/-- What a call of `Get` leaves behind: the value returned, the cache entry, the world,
and the number of calls of `fetchData` it made. -/
structure GetResult (α W : Type) where
  /-- The value returned. -/
  value : α
  /-- The cache entry after the call. -/
  cache : CachedData α
  /-- The world after the call. -/
  world : W
  /-- The number of calls of `fetchData`. -/
  calls : Nat

/-- The method `CachedData.Get`, for one caller.  `now` reads the clock of the world
(`time.Since` and `time.Now` each read it once) and `fetchData` is the producer. -/
def CachedData.Get {α W : Type} (now : W → Int × W) (fetchData : W → α × W)
    (c : CachedData α) (w : W) : GetResult α W :=
  -- under the read lock
  let (t1, w1) := now w
  if timeSince t1 c.Timestamp < c.TTL then
    { value := c.Data, cache := c, world := w1, calls := 0 }
  else
    -- under the write lock: the check is made again
    let (t2, w2) := now w1
    if timeSince t2 c.Timestamp < c.TTL then
      { value := c.Data, cache := c, world := w2, calls := 0 }
    else
      let (data, w3) := fetchData w2
      let (t3, w4) := now w3
      { value := data, cache := { c with Data := data, Timestamp := t3 }, world := w4,
        calls := 1 }

/-- The name of one of the five global caches. -/
inductive CacheId where
  | tracking | sources | activity | serverMode | clients
  deriving DecidableEq, Repr

/-- The global cache variable of the given name. -/
def Caches.get (cs : Caches) : CacheId → Option (CachedData Value)
  | CacheId.tracking => cs.trackingCache
  | CacheId.sources => cs.sourcesCache
  | CacheId.activity => cs.activityCache
  | CacheId.serverMode => cs.serverModeCache
  | CacheId.clients => cs.clientsCache

/-- One reading of the clock of the world. -/
def readClock (w : World) : Int × World :=
  (w.clock w.clockReads, { w with clockReads := w.clockReads + 1 })

/-- One second, as a `time.Duration`. -/
def second : Int := 1000000000

/-- The function `initializeCaches`: the five caches are created once, with an empty
value and the zero timestamp. -/
def initializeCaches (w : World) : World :=
  if w.caches.cacheInitialized then w
  else
    { w with caches := {
        trackingCache := some { Data := Value.null, Timestamp := 0, TTL := 30 * second }
        sourcesCache := some { Data := Value.null, Timestamp := 0, TTL := 30 * second }
        activityCache := some { Data := Value.null, Timestamp := 0, TTL := 30 * second }
        serverModeCache := some { Data := Value.null, Timestamp := 0, TTL := 5 * second }
        clientsCache := some { Data := Value.null, Timestamp := 0, TTL := 30 * second }
        cacheInitialized := true } }

/-- The statement `cache.Timestamp = time.Time{}` on a cache pointer that is not nil. -/
def forceRefresh (cache : Option (CachedData Value)) : Option (CachedData Value) :=
  match cache with
  | none => none
  | some c => some { c with Timestamp := 0 }

/-- The function `invalidateCaches`. -/
def invalidateCaches (w : World) : World :=
  if !w.caches.cacheInitialized then w
  else
    { w with caches := {
        trackingCache := forceRefresh w.caches.trackingCache
        sourcesCache := forceRefresh w.caches.sourcesCache
        activityCache := forceRefresh w.caches.activityCache
        serverModeCache := forceRefresh w.caches.serverModeCache
        clientsCache := forceRefresh w.caches.clientsCache
        cacheInitialized := w.caches.cacheInitialized } }

/-- The producer of the server-mode cache, set in `initializeCaches`. -/
def fetchServerMode (w : World) : Value × World :=
  (Value.flag (getServerModeStatus w), w)

/-! ## Process invoker -/

/-- The function `runChronyc`: the trimmed output and an empty error text, or an empty
output and the error text. -/
def runChronyc (args : List Str) (w : World) : (Str × Str) × World :=
  let w1 := { w with trace := w.trace ++ [Effect.chronyc args] }
  match w.chronycReply w.trace args with
  | Except.error err => (([], err), w1)
  | Except.ok output => ((trimSpace output, []), w1)

/-! ## Request handlers -/

/-- The method of a request. -/
inductive Method where
  | GET | PUT | DELETE
  /-- Any other method. -/
  | other
  deriving DecidableEq, Repr

/-- The value of `claims["permissions"]`, as far as `hasPermission` tells values
apart. -/
inductive Permissions where
  /-- The key is absent. -/
  | absent
  /-- A `[]interface{}`; an item that is not a string is `none`. -/
  | anyList (items : List (Option Str))
  /-- A `[]string`. -/
  | strList (items : List Str)
  /-- A `string`. -/
  | str (s : Str)
  /-- A value of any other type. -/
  | other
  deriving DecidableEq, Repr

/-- A request, as far as the handlers look at it. -/
structure Request where
  /-- The field `r.Method`. -/
  method : Method
  /-- The result of `getClaimsFromRequest(r)`: `none` for an error, else the claims,
  of which only the permissions are looked at. -/
  claims : Option Permissions
  /-- The result of decoding the body into a `SetServersRequest`: `none` for an error,
  else the field `Servers`. -/
  serversBody : Option (List Str)
  /-- The result of decoding the body into a `SetServerModeRequest`: `none` for an
  error, else the field `Enabled`. -/
  modeBody : Option Bool
  /-- The value of `r.URL.Query().Get("flags")`: empty when the parameter is absent. -/
  flags : Str := []
  deriving DecidableEq, Repr

/-- The response of a handler; of an error only the status code is kept. -/
inductive Response where
  /-- The call `http.Error(w, ..., status)`. -/
  | error (status : Nat)
  /-- The reply to `GET /servers`. -/
  | servers (servers : List Str)
  /-- The reply to `PUT /servers` and `PUT /servers/default`. -/
  | setServers (result : List Str) (restartSuccess : Bool)
  /-- The reply to `DELETE /servers`. -/
  | deleteSources (output error : Str) (restartSuccess : Bool)
  /-- The reply to `GET /server-mode`. -/
  | serverMode (enabled : Bool)
  /-- The reply to `PUT /server-mode`. -/
  | setServerMode (success enabled : Bool)
  /-- The handler panicked. -/
  | panic (p : Panic)
  /-- The reply to `GET /status`: the entries of the response mapping. -/
  | status (entries : List (Str × Value))
  deriving DecidableEq, Repr

/-- The function `hasPermission`. -/
def hasPermission (claims : Permissions) (perm : Str) : Bool :=
  match claims with
  | Permissions.absent => false
  | Permissions.anyList v => v.any (fun p => p == some perm)
  | Permissions.strList v => v.any (fun ps => ps == perm)
  | Permissions.str v => (v.splitOn ',').any (fun ps => trimSpace ps == perm)
  | Permissions.other => false

/-- The constant `DEFAULT_SERVERS`. -/
def DEFAULT_SERVERS : Str := "pool.ntp.org".toList

/-- The permission the mutating handlers ask for. -/
def writePermission : Str := "x/clock:write".toList

/-- The function `handleServers`. -/
def handleServers (r : Request) (w : World) : Response × World :=
  match r.method with
  | Method.GET =>
    match r.claims with
    | none => (Response.error 401, w)
    | some _ => (Response.servers (getConfiguredServers w), w)
  | Method.PUT =>
    match r.claims with
    | none => (Response.error 401, w)
    | some claims =>
      if w.permissionCheckEnabled && !hasPermission claims writePermission then
        (Response.error 403, w)
      else
        match r.serversBody with
        | none => (Response.error 400, w)
        | some servers =>
          if servers.length = 0 then (Response.error 400, w)
          else
            match updateChronyConfServers servers w with
            | (false, w1) => (Response.error 500, w1)
            | (true, w1) =>
              match restartChrony w1 with
              | (restartSuccess, w2) =>
                (Response.setServers servers restartSuccess, invalidateCaches w2)
  | Method.DELETE =>
    match r.claims with
    | none => (Response.error 401, w)
    | some claims =>
      if w.permissionCheckEnabled && !hasPermission claims writePermission then
        (Response.error 403, w)
      else
        match runChronyc ["delete".toList, "sources".toList] w with
        | ((output, errStr), w1) =>
          match restartChrony w1 with
          | (restartSuccess, w2) =>
            (Response.deleteSources output errStr restartSuccess, invalidateCaches w2)
  | _ => (Response.error 405, w)

/-- The function `handleDefaultServers`. -/
def handleDefaultServers (r : Request) (w : World) : Response × World :=
  if r.method ≠ Method.PUT then (Response.error 405, w)
  else
    match updateChronyConfServers [DEFAULT_SERVERS] w with
    | (false, w1) => (Response.error 500, w1)
    | (true, w1) =>
      match restartChrony w1 with
      | (restartSuccess, w2) =>
        (Response.setServers [DEFAULT_SERVERS] restartSuccess, invalidateCaches w2)

/-- The function `handleServerMode`. -/
def handleServerMode (r : Request) (w : World) : Response × World :=
  match r.method with
  | Method.GET =>
    match r.claims with
    | none => (Response.error 401, w)
    | some _ =>
      let w1 := initializeCaches w
      match w1.caches.serverModeCache with
      | none => (Response.panic Panic.nilDereference, w1)
      | some c =>
        let res := c.Get readClock fetchServerMode w1
        let w2 := { res.world with
          caches := { res.world.caches with serverModeCache := some res.cache } }
        match res.value with
        | Value.flag enabled => (Response.serverMode enabled, w2)
        | _ => (Response.serverMode false, w2)
  | Method.PUT =>
    match r.claims with
    | none => (Response.error 401, w)
    | some claims =>
      if w.permissionCheckEnabled && !hasPermission claims writePermission then
        (Response.error 403, w)
      else
        match r.modeBody with
        | none => (Response.error 400, w)
        | some enabled =>
          match setServerModeStatus enabled w with
          | (success, w1) =>
            -- only the server-mode cache is invalidated here
            let w2 :=
              if w1.caches.cacheInitialized && w1.caches.serverModeCache.isSome then
                { w1 with caches := { w1.caches with
                    serverModeCache := forceRefresh w1.caches.serverModeCache } }
              else w1
            (Response.setServerMode success enabled, w2)
  | _ => (Response.error 405, w)

/-- Whether the two guards at the head of a mutating branch let the request through:
claim extraction succeeds, and the permission is present or permissions are not
checked. -/
def authorised (r : Request) (w : World) : Bool :=
  match r.claims with
  | none => false
  | some claims => !(w.permissionCheckEnabled && !hasPermission claims writePermission)

/-! ## Sample inputs -/

/-- A cache entry refreshed at a late instant, holding a flag. -/
def sampleEntry (ttl : Int) : CachedData Value :=
  { Data := Value.flag false, Timestamp := 63000000000 * second, TTL := ttl }

/-- A world with a readable and writable configuration file, initialised caches that
are all fresh, and a daemon that fails to start. -/
def sampleWorld : World :=
  { conf := some "pool 2.pool.ntp.org iburst\nserver old.example iburst\n#allow 0.0.0.0/0".toList
    confWritable := true
    chronydStarts := false
    chronycReply := fun _ _ => Except.ok []
    clock := fun n => 63000000001 * second + n
    clockReads := 0
    caches := {
      trackingCache := some (sampleEntry (30 * second))
      sourcesCache := some (sampleEntry (30 * second))
      activityCache := some (sampleEntry (30 * second))
      serverModeCache := some (sampleEntry (5 * second))
      clientsCache := some (sampleEntry (30 * second))
      cacheInitialized := true }
    permissionCheckEnabled := true
    trace := [] }

/-- A `PUT` request carrying the write permission, whose body asks for server mode on
or for the servers `a.example` and `b.example`. -/
def samplePut : Request :=
  { method := Method.PUT
    claims := some (Permissions.anyList [some writePermission])
    serversBody := some ["a.example".toList, "b.example".toList]
    modeBody := some true }

/-- A `PUT` request without a valid token: claim extraction fails. -/
def sampleAnonymousPut : Request :=
  { method := Method.PUT
    claims := none
    serversBody := some ["a.example".toList, "b.example".toList]
    modeBody := some true }

/-! ## Output parsers: tracking -/

/-- The cut of `s` at its first `sep`: the text before it and the text after it, `none`
when `sep` does not occur. -/
def cutAtFirst (sep : Char) : Str → Option (Str × Str)
  | [] => none
  | c :: cs =>
    if c = sep then some ([], cs)
    else
      match cutAtFirst sep cs with
      | none => none
      | some (before, after) => some (c :: before, after)

/-- The call `strings.SplitN(s, ":", 2)`: at most two pieces, cut at the first colon. -/
def splitColon2 (s : Str) : List Str :=
  match cutAtFirst ':' s with
  | none => [s]
  | some (before, after) => [before, after]

/-- The `switch key` of `parseTrackingOutput`. -/
def trackingAssign (result : StrMap) (key value : Str) : StrMap :=
  if key = "Reference ID".toList then mapSet result "ReferenceID".toList value
  else if key = "Stratum".toList then mapSet result "Stratum".toList value
  else if key = "Ref time (UTC)".toList then mapSet result "Ref time (UTC)".toList value
  else if key = "System time".toList then mapSet result "System time".toList value
  else if key = "Last offset".toList then mapSet result "Last offset".toList value
  else if key = "RMS offset".toList then mapSet result "RMS offset".toList value
  else if key = "Frequency".toList then mapSet result "Frequency".toList value
  else if key = "Residual freq".toList then mapSet result "Residual freq".toList value
  else if key = "Skew".toList then mapSet result "Skew".toList value
  else if key = "Root delay".toList then mapSet result "Root delay".toList value
  else if key = "Root dispersion".toList then mapSet result "Root dispersion".toList value
  else if key = "Update interval".toList then
    mapSet (mapSet result "Update interval".toList value) "UpdateRate".toList value
  else if key = "Leap status".toList then
    mapSet (mapSet result "Leap status".toList value) "LeapStatus".toList value
  else mapSet result key value

/-- One round of the loop of `parseTrackingOutput`. -/
def trackingStep (result : StrMap) (line : Str) : StrMap :=
  if contains line ":".toList then
    match splitColon2 line with
    | [before, after] => trackingAssign result (trimSpace before) (trimSpace after)
    | _ => result
  else result

/-- The function `parseTrackingOutput`. -/
def parseTrackingOutput (output : Str) : StrMap :=
  (splitLines output).foldl trackingStep []

/-- The entries one line contributes to the tracking record, as the specification
words it: nothing without a colon; otherwise the trimmed text after the first colon,
under the trimmed text before it, where `Reference ID` is stored as `ReferenceID`,
`Update interval` also as `UpdateRate`, `Leap status` also as `LeapStatus`, and any
other name under itself. -/
def trackingEntries (line : Str) : List (Str × Str) :=
  if ':' ∈ line then
    let key := trimSpace (line.takeWhile (fun c => c != ':'))
    let value := trimSpace ((line.dropWhile (fun c => c != ':')).drop 1)
    if key = "Reference ID".toList then [("ReferenceID".toList, value)]
    else if key = "Update interval".toList then
      [("Update interval".toList, value), ("UpdateRate".toList, value)]
    else if key = "Leap status".toList then
      [("Leap status".toList, value), ("LeapStatus".toList, value)]
    else [(key, value)]
  else []

/-- The tracking record as the specification words it: the lines are processed in
order, each entry is stored under its key, and a later entry replaces an earlier one
with the same key. -/
def trackingRecord (output : Str) : StrMap :=
  (splitLines output).foldl
    (fun record line =>
      (trackingEntries line).foldl (fun m entry => mapSet m entry.1 entry.2) record) []

/-! ## Server mode: reading after writing -/

/-- Whether `getServerModeStatus` counts a line: it is not blank and, once trimmed,
starts with `allow`. -/
def startsAllow (line : Str) : Bool :=
  decide (trimSpace line ≠ []) && hasPrefix (trimSpace line) "allow".toList

/-- Whether `setServerModeStatus` takes a line as commented: once trimmed, it starts
with `#`. -/
def commented (line : Str) : Bool :=
  hasPrefix (trimSpace line) "#".toList

/-- A world whose configuration file allows a local network and every network, and
whose daemon starts. -/
def sampleLanWorld : World :=
  { sampleWorld with
    conf := some "allow 192.168.0.0/16\nallow 0.0.0.0/0".toList
    chronydStarts := true }

/-- A world whose configuration file opens the command port to every network, and
whose daemon starts. -/
def sampleCmdWorld : World :=
  { sampleWorld with
    conf := some "cmdallow 0.0.0.0/0".toList
    chronydStarts := true }

/-- An authorised `PUT /server-mode` request that asks for server mode off. -/
def samplePutOff : Request :=
  { samplePut with modeBody := some false }

/-! ## Output parsers: clients -/

/-- The part of the loop body of `parseClientsOutput` that handles a data line; every
index is below the length tested just before it. -/
def parseClientLine (line : Str) : Option StrMap :=
  let parts := reSplitSpaces (trimSpace line)
  if 2 ≤ parts.length then
    let client : StrMap := [("address".toList, parts.getD 0 []), ("raw".toList, line)]
    let client :=
      if 3 ≤ parts.length then mapSet client "ntp_packets".toList (parts.getD 1 []) else client
    let client :=
      if 4 ≤ parts.length then mapSet client "ntp_dropped".toList (parts.getD 2 []) else client
    let client :=
      if 5 ≤ parts.length then mapSet client "offset".toList (parts.getD 3 []) else client
    some client
  else none

/-- One round of the loop of `parseClientsOutput`: `acc` holds `headerFound` and
`clients`. -/
def clientsStep (acc : Bool × List StrMap) (line : Str) : Bool × List StrMap :=
  if !acc.1 then
    if trimSpace line = separatorLine then (true, acc.2) else acc
  else if trimSpace line = [] ∨ trimSpace line = separatorLine then acc
  else
    match parseClientLine line with
    | some client => (acc.1, acc.2 ++ [client])
    | none => acc

/-- The function `parseClientsOutput`. -/
def parseClientsOutput (output : Str) : List StrMap :=
  ((splitLines output).foldl clientsStep (false, [])).2

/-! ## Status aggregator -/

/-- The method `CachedData.Get`, for one caller and a producer that may panic: the
panic passes through `Get` and nothing is stored. -/
def CachedData.GetOrPanic {α W : Type} (now : W → Int × W)
    (fetchData : W → Except Panic α × W) (c : CachedData α) (w : W) :
    Except (Panic × W) (GetResult α W) :=
  let (t1, w1) := now w
  if timeSince t1 c.Timestamp < c.TTL then
    Except.ok { value := c.Data, cache := c, world := w1, calls := 0 }
  else
    let (t2, w2) := now w1
    if timeSince t2 c.Timestamp < c.TTL then
      Except.ok { value := c.Data, cache := c, world := w2, calls := 0 }
    else
      match fetchData w2 with
      | (Except.error p, w3) => Except.error (p, w3)
      | (Except.ok data, w3) =>
        let (t3, w4) := now w3
        Except.ok { value := data, cache := { c with Data := data, Timestamp := t3 },
                    world := w4, calls := 1 }

/-- The producers set in `initializeCaches`. -/
def fetchData (id : CacheId) (w : World) : Except Panic Value × World :=
  match id with
  | CacheId.tracking =>
    match runChronyc ["tracking".toList] w with
    | ((output, err), w1) =>
      if err ≠ [] then (Except.ok (Value.mapping [("error".toList, err)]), w1)
      else (Except.ok (Value.mapping (parseTrackingOutput output)), w1)
  | CacheId.sources =>
    match runChronyc ["sources".toList] w with
    | ((output, err), w1) =>
      if err ≠ [] then (Except.ok (Value.records []), w1)
      else
        match parseSourcesOutput output with
        | Except.ok sources => (Except.ok (Value.records sources), w1)
        | Except.error p => (Except.error p, w1)
  | CacheId.activity =>
    match runChronyc ["activity".toList] w with
    | ((output, err), w1) =>
      if err ≠ [] then (Except.ok (Value.mapping [("error".toList, err)]), w1)
      else (Except.ok (Value.mapping (parseActivityOutput output)), w1)
  | CacheId.serverMode => (Except.ok (Value.flag (getServerModeStatus w)), w)
  | CacheId.clients =>
    match runChronyc ["clients".toList] w with
    | ((output, err), w1) =>
      if err ≠ [] then (Except.ok (Value.records []), w1)
      else (Except.ok (Value.records (parseClientsOutput output)), w1)

/-- The assignment of a cache entry to the global cache variable of the given name. -/
def Caches.set (cs : Caches) (id : CacheId) (c : CachedData Value) : Caches :=
  match id with
  | CacheId.tracking => { cs with trackingCache := some c }
  | CacheId.sources => { cs with sourcesCache := some c }
  | CacheId.activity => { cs with activityCache := some c }
  | CacheId.serverMode => { cs with serverModeCache := some c }
  | CacheId.clients => { cs with clientsCache := some c }

/-- The call `cache.Get()` on the global cache of the given name. -/
def cacheGet (id : CacheId) (w : World) : Except Panic Value × World :=
  match w.caches.get id with
  | none => (Except.error Panic.nilDereference, w)
  | some c =>
    match c.GetOrPanic readClock (fetchData id) w with
    | Except.error (p, w1) => (Except.error p, w1)
    | Except.ok res =>
      (Except.ok res.value, { res.world with caches := res.world.caches.set id res.cache })

/-- The function `strconv.Atoi` on a 64-bit platform: an optional sign, then one or
more decimal digits, denoting a value in the range of `int`; `none` for an error. -/
def atoi (s : Str) : Option Int :=
  let negative := s.head? == some '-'
  let digits := if s.head? == some '-' || s.head? == some '+' then s.drop 1 else s
  if digits = [] ∨ digits.all Char.isDigit = false then none
  else
    let magnitude : Nat := digits.foldl (fun n ch => n * 10 + (ch.toNat - '0'.toNat)) 0
    let value : Int := if negative then -(magnitude : Int) else magnitude
    if value < -(2 ^ 63) ∨ 2 ^ 63 - 1 < value then none else some value

/-- The constant `STATUS_TRACKING`. -/
def STATUS_TRACKING : Int := 1
/-- The constant `STATUS_SOURCES`. -/
def STATUS_SOURCES : Int := 2
/-- The constant `STATUS_ACTIVITY`. -/
def STATUS_ACTIVITY : Int := 4
/-- The constant `STATUS_CLIENTS`. -/
def STATUS_CLIENTS : Int := 8
/-- The constant `STATUS_SERVER_MODE`. -/
def STATUS_SERVER_MODE : Int := 16
/-- The constant `STATUS_ALL`, the five bits together. -/
def STATUS_ALL : Int := 31

/-- The test `flags&mask != 0` for a mask that is a power of two and `flags` an `int`
in two's complement: the quotient of `flags` by `mask`, rounded down, is odd. -/
def hasBit (flags mask : Int) : Bool :=
  (flags / mask) % 2 == 1

/-- The flags `handleStatus` works with, given the `flags` query parameter. -/
def statusFlags (flagStr : Str) : Int :=
  if flagStr ≠ [] then
    match atoi flagStr with
    | some parsed => parsed
    | none => STATUS_ALL
  else STATUS_ALL

/-- The type assertion to `map[string]string`, with the value used when it fails. -/
def asMapping (what : Str) (data : Value) : Value :=
  match data with
  | Value.mapping m => Value.mapping m
  | _ => Value.mapping [("error".toList, "Failed to parse ".toList ++ what ++ " data".toList)]

/-- The type assertion to `[]map[string]string`, with the value used when it fails. -/
def asRecords (data : Value) : Value :=
  match data with
  | Value.records rs => Value.records rs
  | _ => Value.records []

/-- The type assertion to `bool`, with the value used when it fails. -/
def asFlag (data : Value) : Value :=
  match data with
  | Value.flag b => Value.flag b
  | _ => Value.flag false

/-- One of the five blocks of `handleStatus`: when the bit is set, the cache is read
and its value is stored in the response under `key`.  `acc` holds the response built so
far, or the panic that ended the handler; the five keys are distinct, so that storing
is appending. -/
def statusPart (flags mask : Int) (id : CacheId) (key : Str) (convert : Value → Value)
    (acc : Except Panic (List (Str × Value)) × World) :
    Except Panic (List (Str × Value)) × World :=
  match acc with
  | (Except.error p, w) => (Except.error p, w)
  | (Except.ok response, w) =>
    if hasBit flags mask then
      match cacheGet id w with
      | (Except.error p, w1) => (Except.error p, w1)
      | (Except.ok data, w1) => (Except.ok (response ++ [(key, convert data)]), w1)
    else (Except.ok response, w)

/-- The function `handleStatus`. -/
def handleStatus (r : Request) (w : World) : Response × World :=
  if r.method ≠ Method.GET then (Response.error 405, w)
  else
    let w0 := initializeCaches w
    let flags := statusFlags r.flags
    let acc : Except Panic (List (Str × Value)) × World := (Except.ok [], w0)
    let acc := statusPart flags STATUS_TRACKING CacheId.tracking "tracking".toList
      (asMapping "tracking".toList) acc
    let acc := statusPart flags STATUS_SOURCES CacheId.sources "sources".toList asRecords acc
    let acc := statusPart flags STATUS_ACTIVITY CacheId.activity "activity".toList
      (asMapping "activity".toList) acc
    let acc := statusPart flags STATUS_CLIENTS CacheId.clients "clients".toList asRecords acc
    let acc := statusPart flags STATUS_SERVER_MODE CacheId.serverMode
      "server_mode_enabled".toList asFlag acc
    match acc with
    | (Except.ok response, w1) => (Response.status response, w1)
    | (Except.error p, w1) => (Response.panic p, w1)

/-- A `GET /status` request with the given `flags` parameter. -/
def statusRequest (flagStr : Str) : Request :=
  { method := Method.GET, claims := none, serversBody := none, modeBody := none,
    flags := flagStr }

/-- The five keys of the full status response, in the order they are stored. -/
def statusKeys : List Str :=
  ["tracking".toList, "sources".toList, "activity".toList, "clients".toList,
    "server_mode_enabled".toList]

/-- A world at start-up: the caches are not yet created; `chronyc` answers every
command with an empty output. -/
def sampleStartWorld : World :=
  { sampleWorld with
    caches := {
      trackingCache := none
      sourcesCache := none
      activityCache := none
      serverModeCache := none
      clientsCache := none
      cacheInitialized := false } }

/-! ## Lemmas on the library functions -/

theorem splitOnP_no_sep (p : Char → Bool) (s : Str) :
    ∀ l ∈ s.splitOnP p, ∀ x ∈ l, p x = false := by
  induction s with
  | nil => simp [List.splitOnP_nil]
  | cons c cs ih =>
    rw [List.splitOnP_cons]
    by_cases hc : p c = true
    · simp only [hc, if_true, List.mem_cons]
      rintro l (rfl | hl)
      · simp
      · exact ih l hl
    · simp only [hc, if_false]
      have hne := List.splitOnP_ne_nil p cs
      cases hsp : cs.splitOnP p with
      | nil => exact absurd hsp hne
      | cons l0 ls =>
        rw [hsp] at ih
        intro l hl
        have hl2 : l = c :: l0 ∨ l ∈ ls := by simpa [List.modifyHead] using hl
        rcases hl2 with hl2 | hl2
        · intro x hx
          rw [hl2] at hx
          rcases List.mem_cons.1 hx with hxc | hx
          · rw [hxc]; simpa using hc
          · exact ih l0 (List.mem_cons_self _ _) x hx
        · exact ih l (List.mem_cons_of_mem _ hl2)

theorem splitLines_no_newline (s : Str) : ∀ l ∈ splitLines s, '\n' ∉ l := by
  intro l hl hmem
  have := splitOnP_no_sep (fun c => c == '\n') s l hl '\n' hmem
  simp at this

theorem splitLines_ne_nil (s : Str) : splitLines s ≠ [] :=
  List.splitOnP_ne_nil _ _

theorem splitLines_joinLines (ls : List Str) (hne : ls ≠ [])
    (h : ∀ l ∈ ls, '\n' ∉ l) : splitLines (joinLines ls) = ls :=
  List.splitOn_intercalate ls '\n' h hne

theorem fields_token_space (t rest : Str) (ht : ∀ c ∈ t, isSpace c = false)
    (hne : t ≠ []) : fields (t ++ ' ' :: rest) = t :: fields rest := by
  unfold fields
  rw [List.splitOnP_first isSpace t (fun x hx => by simp [ht x hx]) ' ' (by decide)]
  cases t with
  | nil => exact absurd rfl hne
  | cons a as => simp [List.filter_cons]

theorem fields_token (t : Str) (ht : ∀ c ∈ t, isSpace c = false) (hne : t ≠ []) :
    fields t = [t] := by
  unfold fields
  rw [List.splitOnP_eq_single isSpace t (fun x hx => by simp [ht x hx])]
  cases t with
  | nil => exact absurd rfl hne
  | cons a as => simp [List.filter_cons]

theorem serverLine_eq (s : Str) :
    "server ".toList ++ s ++ " iburst".toList
      = 's' :: 'e' :: 'r' :: 'v' :: 'e' :: 'r' :: ' ' :: (s ++ [' ', 'i', 'b', 'u', 'r', 's', 't']) := by
  simp [String.toList]

theorem trimSpace_serverLine (s : Str) :
    trimSpace ("server ".toList ++ s ++ " iburst".toList)
      = "server ".toList ++ s ++ " iburst".toList := by
  have h1 : "server ".toList ++ s ++ " iburst".toList
      = 's' :: ("erver ".toList ++ s ++ " iburst".toList) := by simp [String.toList]
  have h2 : "server ".toList ++ s ++ " iburst".toList
      = ("server ".toList ++ s ++ " iburs".toList) ++ ['t'] := by simp [String.toList]
  unfold trimSpace
  have h3 : ("server ".toList ++ s ++ " iburst".toList).dropWhile isSpace
      = "server ".toList ++ s ++ " iburst".toList := by
    rw [h1, List.dropWhile_cons_of_neg (by decide)]
  rw [h3]
  conv_lhs => rw [h2]
  rw [List.rdropWhile_concat_neg _ _ _ (by decide), ← h2]

theorem serverOfLine_serverLine (s : Str) (hs : ∀ c ∈ s, isSpace c = false)
    (hne : s ≠ []) :
    serverOfLine ("server ".toList ++ s ++ " iburst".toList) = some s := by
  unfold serverOfLine
  simp only [trimSpace_serverLine]
  have hp : hasPrefix ("server ".toList ++ s ++ " iburst".toList) "server ".toList = true := by
    simp [hasPrefix, List.append_assoc]
  have hf : fields ("server ".toList ++ s ++ " iburst".toList)
      = ["server".toList, s, "iburst".toList] := by
    have e : "server ".toList ++ s ++ " iburst".toList
        = "server".toList ++ ' ' :: (s ++ ' ' :: "iburst".toList) := by simp [String.toList]
    rw [e, fields_token_space _ _ (by decide) (by decide), fields_token_space _ _ hs hne,
      fields_token _ (by decide) (by decide)]
  rw [hp, hf]
  rfl

theorem serverOfLine_eq_none (line : Str)
    (h : hasPrefix (trimSpace line) "server ".toList = false) : serverOfLine line = none := by
  unfold serverOfLine
  simp only [h]
  rfl

theorem serverLine_no_newline (s : Str) (hs : ∀ c ∈ s, isSpace c = false) :
    '\n' ∉ "server ".toList ++ s ++ " iburst".toList := by
  intro hmem
  rw [serverLine_eq] at hmem
  have hn : '\n' ∉ s := fun h => by have := hs _ h; revert this; decide
  simp [hn] at hmem

theorem filterMap_serverLines (servers : List Str)
    (h : ∀ s ∈ servers, s ≠ [] ∧ ∀ c ∈ s, isSpace c = false) :
    (servers.map (fun server => "server ".toList ++ server ++ " iburst".toList)).filterMap
      serverOfLine = servers := by
  induction servers with
  | nil => rfl
  | cons s ss ih =>
    have hs := h s (List.mem_cons_self _ _)
    rw [List.map_cons, List.filterMap_cons, serverOfLine_serverLine s hs.2 hs.1]
    simp only
    rw [ih (fun t ht => h t (List.mem_cons_of_mem _ ht))]

theorem filterMap_keptLines (lines : List Str) :
    (lines.filter (fun line => !hasPrefix (trimSpace line) "server ".toList)).filterMap
      serverOfLine = [] := by
  rw [List.filterMap_eq_nil_iff]
  intro l hl
  have := (List.mem_filter.1 hl).2
  exact serverOfLine_eq_none l (by simpa using this)

/-- The lines written by `updateChronyConfServers`. -/
theorem splitLines_updateServersContent (servers : List Str) (content : Str)
    (h : ∀ s ∈ servers, ∀ c ∈ s, isSpace c = false) :
    splitLines (updateServersContent servers content)
      = (splitLines content).filter (fun line => !hasPrefix (trimSpace line) "server ".toList)
        ++ servers.map (fun server => "server ".toList ++ server ++ " iburst".toList)
        ++ [[]] := by
  unfold updateServersContent
  apply splitLines_joinLines
  · simp
  · intro l hl
    rcases List.mem_append.1 hl with hl | hl
    · rcases List.mem_append.1 hl with hl | hl
      · exact splitLines_no_newline content l (List.mem_filter.1 hl).1
      · obtain ⟨s, hs, rfl⟩ := List.mem_map.1 hl
        exact serverLine_no_newline s (h s hs)
    · rw [List.mem_singleton.1 hl]; simp

/-- C1. Write-then-read round trip of the server list: whatever the configuration file
held, after `updateChronyConfServers servers` has written it, `getConfiguredServers`
returns exactly `servers`, in order, provided every name is non-empty and free of white
space. -/
theorem updateChronyConfServers_getConfiguredServers (w : World) (content : Str)
    (servers : List Str) (hconf : w.conf = some content) (hwr : w.confWritable = true)
    (hnames : ∀ s ∈ servers, s ≠ [] ∧ ∀ c ∈ s, isSpace c = false) :
    (updateChronyConfServers servers w).1 = true ∧
    (updateChronyConfServers servers w).2.conf = some (updateServersContent servers content) ∧
    configuredServersOf (updateServersContent servers content) = servers ∧
    getConfiguredServers (updateChronyConfServers servers w).2 = servers := by
  have hscan : configuredServersOf (updateServersContent servers content) = servers := by
    unfold configuredServersOf
    rw [splitLines_updateServersContent servers content (fun s hs => (hnames s hs).2),
      List.filterMap_append, List.filterMap_append, filterMap_keptLines,
      filterMap_serverLines servers hnames]
    simp [serverOfLine_eq_none [] (by decide)]
  simp [updateChronyConfServers, hconf, writeConf, hwr, getConfiguredServers, hscan]

/-! ## Server mode rewrite -/

theorem serverModeStep_eq (enabled : Bool) (acc : List Str × Bool) (line : Str) :
    serverModeStep enabled acc line
      = (acc.1 ++ [serverModeLine enabled line], acc.2 || mentionsAllowAll line) := by
  simp only [serverModeLine, mentionsAllowAll, serverModeStep]
  split_ifs <;> simp_all

theorem foldl_serverModeStep (enabled : Bool) (lines : List Str) (acc : List Str × Bool) :
    lines.foldl (serverModeStep enabled) acc
      = (acc.1 ++ lines.map (serverModeLine enabled), acc.2 || lines.any mentionsAllowAll) := by
  induction lines generalizing acc with
  | nil => simp
  | cons l ls ih =>
    rw [List.foldl_cons, ih, serverModeStep_eq]
    simp [Bool.or_assoc]

theorem serverModeLine_cases (enabled : Bool) (line : Str) :
    serverModeLine enabled line = line ∨
    (enabled = true ∧ mentionsAllowAll line = true ∧
      serverModeLine enabled line = "allow 0.0.0.0/0".toList) ∨
    (enabled = false ∧ mentionsAllowAll line = true ∧
      serverModeLine enabled line = "#allow 0.0.0.0/0".toList) := by
  simp only [serverModeLine, mentionsAllowAll, serverModeStep]
  split_ifs <;> simp_all

theorem serverModeLine_of_not_mentions (enabled : Bool) (line : Str)
    (h : mentionsAllowAll line = false) : serverModeLine enabled line = line := by
  unfold mentionsAllowAll at h
  simp only [serverModeLine, serverModeStep, h]
  simp

theorem serverModeLine_idem (enabled : Bool) (line : Str) :
    serverModeLine enabled (serverModeLine enabled line) = serverModeLine enabled line := by
  rcases serverModeLine_cases enabled line with h | ⟨he, _, h⟩ | ⟨he, _, h⟩
  · rw [h]; exact h
  · rw [h, he]; decide
  · rw [h, he]; decide

theorem mentionsAllowAll_serverModeLine (enabled : Bool) (line : Str) :
    mentionsAllowAll (serverModeLine enabled line) = mentionsAllowAll line := by
  rcases serverModeLine_cases enabled line with h | ⟨_, hm, h⟩ | ⟨_, hm, h⟩
  · rw [h]
  · rw [h, hm]; decide
  · rw [h, hm]; decide

theorem serverModeLine_no_newline (enabled : Bool) (line : Str) (h : '\n' ∉ line) :
    '\n' ∉ serverModeLine enabled line := by
  rcases serverModeLine_cases enabled line with h1 | ⟨_, _, h1⟩ | ⟨_, _, h1⟩
  · rw [h1]; exact h
  · rw [h1]; decide
  · rw [h1]; decide

theorem serverModeContent_eq (enabled : Bool) (content : Str) :
    serverModeContent enabled content
      = joinLines (serverModeLines enabled (splitLines content)) := by
  simp only [serverModeContent, serverModeLines, foldl_serverModeStep]
  simp

theorem any_mentions_map (enabled : Bool) (lines : List Str) :
    (lines.map (serverModeLine enabled)).any mentionsAllowAll = lines.any mentionsAllowAll := by
  induction lines with
  | nil => rfl
  | cons l ls ih => simp only [List.map_cons, List.any_cons, ih, mentionsAllowAll_serverModeLine]

theorem map_serverModeLine_idem (enabled : Bool) (lines : List Str) :
    (lines.map (serverModeLine enabled)).map (serverModeLine enabled)
      = lines.map (serverModeLine enabled) := by
  induction lines with
  | nil => rfl
  | cons l ls ih => simp only [List.map_cons, ih, serverModeLine_idem]

theorem serverModeLines_idem (enabled : Bool) (lines : List Str) :
    serverModeLines enabled (serverModeLines enabled lines) = serverModeLines enabled lines := by
  unfold serverModeLines
  cases enabled with
  | false => simp only [Bool.false_and, Bool.false_eq_true, if_false, map_serverModeLine_idem]
  | true =>
    cases hany : lines.any mentionsAllowAll with
    | true =>
      simp only [Bool.not_true, Bool.and_false, Bool.false_eq_true, if_false,
        any_mentions_map, hany, map_serverModeLine_idem]
    | false =>
      have h0 : mentionsAllowAll "allow 0.0.0.0/0".toList = true := by decide
      have h1 : serverModeLine true "allow 0.0.0.0/0".toList = "allow 0.0.0.0/0".toList := by
        decide
      simp only [Bool.not_false, Bool.and_true, if_true, List.any_append, List.any_cons, h0,
        Bool.true_or, Bool.or_true, Bool.not_true, Bool.false_eq_true, if_false,
        List.map_append, map_serverModeLine_idem, List.map_cons, List.map_nil, h1,
        Bool.and_false]

theorem serverModeLines_ne_nil (enabled : Bool) (lines : List Str) (h : lines ≠ []) :
    serverModeLines enabled lines ≠ [] := by
  unfold serverModeLines
  split_ifs <;> simp [h]

theorem serverModeLines_no_newline (enabled : Bool) (lines : List Str)
    (h : ∀ l ∈ lines, '\n' ∉ l) : ∀ l ∈ serverModeLines enabled lines, '\n' ∉ l := by
  have hmap : ∀ l ∈ lines.map (serverModeLine enabled), '\n' ∉ l := by
    intro l hl
    obtain ⟨l0, hl0, rfl⟩ := List.mem_map.1 hl
    exact serverModeLine_no_newline enabled l0 (h l0 hl0)
  unfold serverModeLines
  split_ifs
  · intro l hl
    rcases List.mem_append.1 hl with hl | hl
    · exact hmap l hl
    · rw [List.mem_singleton.1 hl]; decide
  · exact hmap

theorem serverModeContent_idem (enabled : Bool) (content : Str) :
    serverModeContent enabled (serverModeContent enabled content)
      = serverModeContent enabled content := by
  rw [serverModeContent_eq enabled content, serverModeContent_eq,
    splitLines_joinLines _ (serverModeLines_ne_nil _ _ (splitLines_ne_nil content))
      (serverModeLines_no_newline _ _ (splitLines_no_newline content)),
    serverModeLines_idem]

/-- Witness of C1 on the sample world, with the list `a.example`, `b.example`. -/
theorem updateChronyConfServers_getConfiguredServers_witness :
    (∀ s ∈ ["a.example".toList, "b.example".toList], s ≠ [] ∧ ∀ c ∈ s, isSpace c = false) ∧
    getConfiguredServers
        (updateChronyConfServers ["a.example".toList, "b.example".toList] sampleWorld).2
      = ["a.example".toList, "b.example".toList] :=
  ⟨by decide,
    (updateChronyConfServers_getConfiguredServers sampleWorld _
      ["a.example".toList, "b.example".toList] rfl rfl (by decide)).2.2.2⟩

/-! ## Server mode: the rewrite is idempotent -/

theorem restartChrony_conf (w : World) :
    (restartChrony w).2.conf = w.conf ∧ (restartChrony w).2.confWritable = w.confWritable :=
  ⟨rfl, rfl⟩

theorem setServerModeStatus_conf (enabled : Bool) (w : World) :
    (setServerModeStatus enabled w).2.confWritable = w.confWritable ∧
    (setServerModeStatus enabled w).2.conf =
      match w.conf with
      | none => none
      | some content =>
        if w.confWritable then some (serverModeContent enabled content) else some content := by
  unfold setServerModeStatus
  cases hc : w.conf with
  | none => simp [hc]
  | some content =>
    cases hw : w.confWritable <;> simp [writeConf, hw, restartChrony, hc]

/-- C2. The rewrite of the configuration file made by `setServerModeStatus enabled` is
idempotent: rewriting the rewritten text changes nothing, and so a second call of
`setServerModeStatus enabled` leaves the file as the first call left it. -/
theorem setServerModeStatus_idempotent (enabled : Bool) :
    (∀ content : Str, serverModeContent enabled (serverModeContent enabled content)
      = serverModeContent enabled content) ∧
    (∀ w : World, (setServerModeStatus enabled (setServerModeStatus enabled w).2).2.conf
      = (setServerModeStatus enabled w).2.conf) := by
  refine ⟨serverModeContent_idem enabled, fun w => ?_⟩
  rw [(setServerModeStatus_conf enabled _).2, (setServerModeStatus_conf enabled w).1,
    (setServerModeStatus_conf enabled w).2]
  cases hc : w.conf with
  | none => rfl
  | some content =>
    cases hw : w.confWritable <;> simp [serverModeContent_idem]

/-! ## Freshness cache -/

theorem timeSince_mono (a b t : Int) (h : a ≤ b) : timeSince a t ≤ timeSince b t := by
  unfold timeSince maxDuration minDuration
  split_ifs <;> omega

theorem timeSince_zero_of_late (now : Int) (h : maxDuration ≤ now) :
    timeSince now 0 = maxDuration := by
  unfold timeSince
  unfold maxDuration minDuration at *
  split_ifs <;> omega

/-- A `Get` whose first check finds the entry fresh returns the stored value and calls
nothing. -/
theorem Get_of_fresh {α W : Type} (now : W → Int × W) (fetchData : W → α × W)
    (c : CachedData α) (w : W) (h : timeSince (now w).1 c.Timestamp < c.TTL) :
    c.Get now fetchData w = { value := c.Data, cache := c, world := (now w).2, calls := 0 } := by
  simp [CachedData.Get, h]

/-- A `Get` whose two checks find the entry stale calls the producer once and stores
its result with the instant read afterwards. -/
theorem Get_of_stale {α W : Type} (now : W → Int × W) (fetchData : W → α × W)
    (c : CachedData α) (w : W) (h1 : c.TTL ≤ timeSince (now w).1 c.Timestamp)
    (h2 : c.TTL ≤ timeSince (now (now w).2).1 c.Timestamp) :
    c.Get now fetchData w =
      { value := (fetchData (now (now w).2).2).1
        cache := { Data := (fetchData (now (now w).2).2).1
                   Timestamp := (now (fetchData (now (now w).2).2).2).1
                   TTL := c.TTL }
        world := (now (fetchData (now (now w).2).2).2).2
        calls := 1 } := by
  simp [CachedData.Get, not_lt.2 h1, not_lt.2 h2]

/-- C3. Freshness of `Get` for one caller whose clock does not run backwards between
the two checks.  With `e` the time elapsed since the stored timestamp at the first
check: the producer is called if and only if `TTL ≤ e`; when `e < TTL` the stored value
is returned, the producer is not called and the entry is unchanged; when `TTL ≤ e` the
producer is called exactly once, its result is stored together with the instant read
after the call, and that result is returned. -/
theorem Get_freshness {α W : Type} (now : W → Int × W) (fetchData : W → α × W)
    (c : CachedData α) (w : W) (hmono : (now w).1 ≤ (now (now w).2).1) :
    (0 < (c.Get now fetchData w).calls ↔ c.TTL ≤ timeSince (now w).1 c.Timestamp) ∧
    (timeSince (now w).1 c.Timestamp < c.TTL →
      (c.Get now fetchData w).value = c.Data ∧ (c.Get now fetchData w).calls = 0 ∧
      (c.Get now fetchData w).cache = c ∧ (c.Get now fetchData w).world = (now w).2) ∧
    (c.TTL ≤ timeSince (now w).1 c.Timestamp →
      (c.Get now fetchData w).calls = 1 ∧
      (c.Get now fetchData w).value = (fetchData (now (now w).2).2).1 ∧
      (c.Get now fetchData w).cache =
        { Data := (fetchData (now (now w).2).2).1
          Timestamp := (now (fetchData (now (now w).2).2).2).1
          TTL := c.TTL } ∧
      (c.Get now fetchData w).world = (now (fetchData (now (now w).2).2).2).2) := by
  have hstale : c.TTL ≤ timeSince (now w).1 c.Timestamp →
      c.TTL ≤ timeSince (now (now w).2).1 c.Timestamp :=
    fun h => le_trans h (timeSince_mono _ _ _ hmono)
  refine ⟨?_, ?_, ?_⟩
  · constructor
    · intro hcalls
      by_contra hlt
      rw [Get_of_fresh now fetchData c w (not_le.1 hlt)] at hcalls
      exact Nat.lt_irrefl 0 hcalls
    · intro h
      rw [Get_of_stale now fetchData c w h (hstale h)]
      exact Nat.one_pos
  · intro h
    rw [Get_of_fresh now fetchData c w h]
    exact ⟨rfl, rfl, rfl, rfl⟩
  · intro h
    rw [Get_of_stale now fetchData c w h (hstale h)]
    exact ⟨rfl, rfl, rfl, rfl⟩

/-- Witness of C3: on the sample world the server-mode entry, refreshed one second
before, is fresh, and `Get` returns the stored flag without calling the producer. -/
theorem Get_freshness_witness :
    (readClock sampleWorld).1 ≤ (readClock (readClock sampleWorld).2).1 ∧
    timeSince (readClock sampleWorld).1 (sampleEntry (5 * second)).Timestamp
      < (sampleEntry (5 * second)).TTL ∧
    ((sampleEntry (5 * second)).Get readClock fetchServerMode sampleWorld).value
      = Value.flag false ∧
    ((sampleEntry (5 * second)).Get readClock fetchServerMode sampleWorld).calls = 0 :=
  ⟨by decide, by decide,
    ((Get_freshness readClock fetchServerMode (sampleEntry (5 * second)) sampleWorld
      (by decide)).2.1 (by decide)).1,
    ((Get_freshness readClock fetchServerMode (sampleEntry (5 * second)) sampleWorld
      (by decide)).2.1 (by decide)).2.1⟩

/-- A `Get` on an entry whose timestamp is the zero instant calls the producer once,
when the clock reads a date later than `maxDuration` after the zero instant and does
not run backwards. -/
theorem Get_of_never (fetchData : World → Value × World) (c : CachedData Value)
    (w : World) (hts : c.Timestamp = 0) (httl : c.TTL ≤ maxDuration)
    (hlate : maxDuration ≤ w.clock w.clockReads)
    (hmono : w.clock w.clockReads ≤ w.clock (w.clockReads + 1)) :
    (c.Get readClock fetchData w).calls = 1 ∧
    (c.Get readClock fetchData w).value = (fetchData (readClock (readClock w).2).2).1 := by
  have h1 : c.TTL ≤ timeSince (readClock w).1 c.Timestamp := by
    rw [hts]
    show c.TTL ≤ timeSince (w.clock w.clockReads) 0
    rw [timeSince_zero_of_late _ hlate]
    exact httl
  have h2 : c.TTL ≤ timeSince (readClock (readClock w).2).1 c.Timestamp := by
    rw [hts]
    show c.TTL ≤ timeSince (w.clock (w.clockReads + 1)) 0
    rw [timeSince_zero_of_late _ (le_trans hlate hmono)]
    exact httl
  rw [Get_of_stale readClock fetchData c w h1 h2]
  exact ⟨rfl, rfl⟩

theorem invalidateCaches_get (w : World) (id : CacheId)
    (hinit : w.caches.cacheInitialized = true) :
    (invalidateCaches w).caches.get id = forceRefresh (w.caches.get id) := by
  unfold invalidateCaches
  cases id <;> simp [hinit, Caches.get]

theorem invalidateCaches_rest (w : World) :
    (invalidateCaches w).trace = w.trace ∧ (invalidateCaches w).conf = w.conf ∧
    (invalidateCaches w).clock = w.clock ∧ (invalidateCaches w).clockReads = w.clockReads := by
  unfold invalidateCaches
  split_ifs <;> exact ⟨rfl, rfl, rfl, rfl⟩

/-- C4. Invalidate then `Get`.  With the caches initialised, `invalidateCaches` runs no
command and writes no file (it has no producer to call), keeps the stored value and the
TTL of every cache and sets its timestamp to the zero instant; a `Get` issued right
afterwards, by a caller whose clock reads a date later than `maxDuration` (about 292
years) after the zero instant and does not run backwards, calls the producer exactly
once and returns the value it produced. -/
theorem invalidateCaches_then_Get (w : World) (id : CacheId) (c : CachedData Value)
    (fetchData : World → Value × World)
    (hinit : w.caches.cacheInitialized = true) (hc : w.caches.get id = some c)
    (httl : c.TTL ≤ maxDuration)
    (hlate : maxDuration ≤ w.clock w.clockReads)
    (hmono : w.clock w.clockReads ≤ w.clock (w.clockReads + 1)) :
    (invalidateCaches w).trace = w.trace ∧ (invalidateCaches w).conf = w.conf ∧
    (invalidateCaches w).caches.get id
      = some { Data := c.Data, Timestamp := 0, TTL := c.TTL } ∧
    ((CachedData.mk c.Data 0 c.TTL).Get readClock fetchData (invalidateCaches w)).calls = 1 ∧
    ((CachedData.mk c.Data 0 c.TTL).Get readClock fetchData (invalidateCaches w)).value
      = (fetchData (readClock (readClock (invalidateCaches w)).2).2).1 := by
  have hrest := invalidateCaches_rest w
  have hget := Get_of_never fetchData (CachedData.mk c.Data 0 c.TTL) (invalidateCaches w) rfl
    httl (by rw [hrest.2.2.1, hrest.2.2.2]; exact hlate)
    (by rw [hrest.2.2.1, hrest.2.2.2]; exact hmono)
  refine ⟨hrest.1, hrest.2.1, ?_, hget.1, hget.2⟩
  rw [invalidateCaches_get w id hinit, hc]
  rfl

/-- Witness of C4: on the sample world the server-mode entry is fresh; after
`invalidateCaches` a `Get` calls the producer, which reads `false` from the file where
the rule is commented out. -/
theorem invalidateCaches_then_Get_witness :
    sampleWorld.caches.cacheInitialized = true ∧
    sampleWorld.caches.get CacheId.serverMode = some (sampleEntry (5 * second)) ∧
    (sampleEntry (5 * second)).TTL ≤ maxDuration ∧
    maxDuration ≤ sampleWorld.clock sampleWorld.clockReads ∧
    sampleWorld.clock sampleWorld.clockReads ≤ sampleWorld.clock (sampleWorld.clockReads + 1) ∧
    ((CachedData.mk (Value.flag false) 0 (5 * second)).Get readClock fetchServerMode
      (invalidateCaches sampleWorld)).calls = 1 :=
  ⟨rfl, rfl, by decide, by decide, by decide,
    (invalidateCaches_then_Get sampleWorld CacheId.serverMode (sampleEntry (5 * second))
      fetchServerMode rfl rfl (by decide) (by decide) (by decide)).2.2.2.1⟩

/-! ## Activity parser -/

theorem contains_append_left (a b sub : Str) (h : contains b sub = true) :
    contains (a ++ b) sub = true := by
  induction a with
  | nil => exact h
  | cons x xs ih =>
    show (sub.isPrefixOf (x :: (xs ++ b)) || contains (xs ++ b) sub) = true
    rw [ih, Bool.or_true]

theorem no_newline_of_no_space (t : Str) (ht : ∀ c ∈ t, isSpace c = false) : '\n' ∉ t :=
  fun h => by have := ht _ h; revert this; decide

theorem splitLines_two (a b : Str) (ha : '\n' ∉ a) (hb : '\n' ∉ b) :
    splitLines (a ++ '\n' :: b) = [a, b] := by
  unfold splitLines List.splitOn
  rw [List.splitOnP_first _ a (fun x hx => by
        simp only [beq_iff_eq]; rintro rfl; exact ha hx) '\n' (by simp),
    List.splitOnP_eq_single _ b (fun x hx => by
        simp only [beq_iff_eq]; rintro rfl; exact hb hx)]

theorem activityStep_count (result : StrMap) (count tail status : Str) (rest : List Str)
    (hc : ∀ x ∈ count, isSpace x = false) (hne : count ≠ [])
    (hcont : contains (' ' :: tail) "sources".toList = true)
    (hf : fields tail = "sources".toList :: status :: rest) :
    activityStep result (count ++ ' ' :: tail) =
      if status = "online".toList then mapSet result "ok_count".toList count
      else if status = "offline".toList then mapSet result "failed_count".toList count
      else if status = "doing burst (return to online)".toList then
        mapSet result "bogus_count".toList count
      else if status = "doing burst (return to offline)".toList then
        mapSet result "timeout_count".toList count
      else result := by
  unfold activityStep
  rw [contains_append_left count _ _ hcont, fields_token_space count tail hc hne, hf]
  rfl

/-- C9. The activity parser on the two lines `c sources online` and
`d sources offline`, for count tokens `c` and `d` that are non-empty and free of white
space: the mapping returned holds `ok_count = c` and `failed_count = d` and no other
key. -/
theorem parseActivityOutput_online_offline (c d : Str)
    (hc : c ≠ [] ∧ ∀ x ∈ c, isSpace x = false) (hd : d ≠ [] ∧ ∀ x ∈ d, isSpace x = false) :
    parseActivityOutput (c ++ " sources online\n".toList ++ d ++ " sources offline".toList)
      = [("ok_count".toList, c), ("failed_count".toList, d)] ∧
    ∀ key : Str,
      (parseActivityOutput
          (c ++ " sources online\n".toList ++ d ++ " sources offline".toList)).lookup key
        = if key = "ok_count".toList then some c
          else if key = "failed_count".toList then some d else none := by
  have hin : c ++ " sources online\n".toList ++ d ++ " sources offline".toList
      = (c ++ ' ' :: "sources online".toList) ++ '\n' :: (d ++ ' ' :: "sources offline".toList) := by
    simp [String.toList]
  have h1 : '\n' ∉ c ++ ' ' :: "sources online".toList := by
    intro h
    rcases List.mem_append.1 h with h | h
    · exact no_newline_of_no_space c hc.2 h
    · revert h; decide
  have h2 : '\n' ∉ d ++ ' ' :: "sources offline".toList := by
    intro h
    rcases List.mem_append.1 h with h | h
    · exact no_newline_of_no_space d hd.2 h
    · revert h; decide
  have hres : parseActivityOutput
      (c ++ " sources online\n".toList ++ d ++ " sources offline".toList)
      = [("ok_count".toList, c), ("failed_count".toList, d)] := by
    unfold parseActivityOutput
    rw [hin, splitLines_two _ _ h1 h2]
    simp only [List.foldl_cons, List.foldl_nil]
    rw [activityStep_count [] c "sources online".toList "online".toList [] hc.2 hc.1
        (by decide) (by decide),
      activityStep_count _ d "sources offline".toList "offline".toList [] hd.2 hd.1
        (by decide) (by decide)]
    simp [mapSet]
  refine ⟨hres, fun key => ?_⟩
  rw [hres]
  by_cases hk1 : key = "ok_count".toList
  · simp [hk1, List.lookup]
  · by_cases hk2 : key = "failed_count".toList
    · rw [if_neg hk1, if_pos hk2, hk2]
      have e1 : ("failed_count".toList == "ok_count".toList) = false := by decide
      simp only [List.lookup, e1, beq_self_eq_true]
    · rw [if_neg hk1, if_neg hk2]
      have e1 : (key == "ok_count".toList) = false := by simpa using hk1
      have e2 : (key == "failed_count".toList) = false := by simpa using hk2
      simp only [List.lookup, e1, e2]

/-- Witness of C9: `3 sources online` then `1 sources offline`. -/
theorem parseActivityOutput_online_offline_witness :
    ("3".toList ≠ [] ∧ ∀ x ∈ "3".toList, isSpace x = false) ∧
    ("1".toList ≠ [] ∧ ∀ x ∈ "1".toList, isSpace x = false) ∧
    parseActivityOutput "3 sources online\n1 sources offline".toList
      = [("ok_count".toList, "3".toList), ("failed_count".toList, "1".toList)] :=
  ⟨by decide, by decide,
    (parseActivityOutput_online_offline "3".toList "1".toList (by decide) (by decide)).1⟩

/-- C10, evaluated: on the line `2 sources doing burst (return to online)` the status
compared with the vocabulary is the single token `doing`, which matches no entry, so
the mapping returned is empty and holds no `bogus_count`; likewise for the phrase
ending in `offline` and `timeout_count`. -/
theorem parseActivityOutput_burst_dropped :
    parseActivityOutput "2 sources doing burst (return to online)".toList = [] ∧
    (parseActivityOutput "2 sources doing burst (return to online)".toList).lookup
      "bogus_count".toList = none ∧
    parseActivityOutput "2 sources doing burst (return to offline)".toList = [] ∧
    (parseActivityOutput "2 sources doing burst (return to offline)".toList).lookup
      "timeout_count".toList = none := by
  decide

/-! ## Sources parser -/

/-- C8, evaluated: a data line of exactly six parts makes `parseSourcesOutput` panic
on `parts[6]`, and a data line of exactly eight parts makes it panic on `parts[8]`;
with seven parts it returns a record without offset and delay. -/
theorem parseSourcesOutput_panics :
    parseSourcesOutput (separatorLine ++ "\n^* ntp.example 2 6 377 19".toList)
      = Except.error (Panic.indexOutOfRange 6 6) ∧
    parseSourcesOutput (separatorLine ++ "\n^* ntp.example 2 6 377 19 +625ms[ -117ms]".toList)
      = Except.error (Panic.indexOutOfRange 8 8) ∧
    parseSourcesOutput (separatorLine ++ "\n^* ntp.example 2 6 377 19 625ms".toList)
      = Except.ok [[("state".toList, "^*".toList), ("name".toList, "ntp.example".toList),
          ("stratum".toList, "2".toList), ("poll".toList, "6".toList),
          ("reach".toList, "377".toList), ("lastrx".toList, "19".toList),
          ("raw".toList, "^* ntp.example 2 6 377 19 625ms".toList)]] := by
  refine ⟨?_, ?_, ?_⟩ <;> decide

theorem offsetMatch_of_shape (sign : Char) (digits rest : Str)
    (hsign : sign = '+' ∨ sign = '-') (hne : digits ≠ [])
    (hdig : ∀ d ∈ digits, d.isDigit = true) :
    offsetMatch (sign :: digits ++ 'm' :: 's' :: rest) = some (sign :: digits ++ ['m', 's']) := by
  have htake : (digits ++ 'm' :: 's' :: rest).takeWhile Char.isDigit = digits := by
    rw [List.takeWhile_append_of_pos hdig]
    simp [List.takeWhile_cons, show Char.isDigit 'm' = false by decide]
  have hdrop : (digits ++ 'm' :: 's' :: rest).dropWhile Char.isDigit = 'm' :: 's' :: rest := by
    rw [List.dropWhile_append_of_pos hdig]
    simp [List.dropWhile_cons, show Char.isDigit 'm' = false by decide]
  show offsetMatch (sign :: (digits ++ 'm' :: 's' :: rest)) = _
  unfold offsetMatch
  simp only [htake, hdrop, hsign, if_true]
  simp [hne, hasPrefix]

theorem offsetMatch_shape (s m : Str) (h : offsetMatch s = some m) :
    ∃ sign digits rest, (sign = '+' ∨ sign = '-') ∧ digits ≠ [] ∧
      (∀ d ∈ digits, d.isDigit = true) ∧ s = sign :: digits ++ 'm' :: 's' :: rest ∧
      m = sign :: digits ++ ['m', 's'] := by
  cases s with
  | nil => simp [offsetMatch] at h
  | cons sign tl =>
    unfold offsetMatch at h
    by_cases hsign : sign = '+' ∨ sign = '-'
    · simp only [hsign, if_true] at h
      by_cases hcond : tl.takeWhile Char.isDigit ≠ [] ∧
          hasPrefix (tl.dropWhile Char.isDigit) "ms".toList = true
      · rw [if_pos hcond] at h
        have hpre : "ms".toList <+: tl.dropWhile Char.isDigit := by
          have := hcond.2
          unfold hasPrefix at this
          exact List.isPrefixOf_iff_prefix.1 this
        obtain ⟨rest, hrest⟩ := hpre
        refine ⟨sign, tl.takeWhile Char.isDigit, rest, hsign, hcond.1, ?_, ?_, ?_⟩
        · intro d hd
          exact List.mem_takeWhile_imp hd
        · have hsplit := List.takeWhile_append_dropWhile Char.isDigit tl
          rw [← hrest] at hsplit
          exact congrArg (List.cons sign) hsplit.symm
        · exact (Option.some.inj h).symm
      · rw [if_neg hcond] at h
        exact absurd h (by simp)
    · simp only [hsign, if_false] at h
      exact absurd h (by simp)

theorem exists_nine_parts (l : List Str) (h : 9 ≤ l.length) :
    ∃ p0 p1 p2 p3 p4 p5 p6 p7 p8 rest,
      l = p0 :: p1 :: p2 :: p3 :: p4 :: p5 :: p6 :: p7 :: p8 :: rest := by
  rcases l with _ | ⟨p0, _ | ⟨p1, _ | ⟨p2, _ | ⟨p3, _ | ⟨p4, _ | ⟨p5, _ | ⟨p6, _ | ⟨p7,
    _ | ⟨p8, rest⟩⟩⟩⟩⟩⟩⟩⟩⟩
  all_goals first
    | exact ⟨_, _, _, _, _, _, _, _, _, _, rfl⟩
    | (simp only [List.length_cons, List.length_nil] at h; omega)

/-- The record built from a data line of at least nine parts. -/
theorem parseSourceLine_nine (line p0 p1 p2 p3 p4 p5 p6 p7 p8 : Str) (rest : List Str)
    (hparts : sourceParts line = p0 :: p1 :: p2 :: p3 :: p4 :: p5 :: p6 :: p7 :: p8 :: rest) :
    ∃ source : StrMap, parseSourceLine line = Except.ok (some source) ∧
      source.lookup "state".toList = some p0 ∧ source.lookup "name".toList = some p1 ∧
      source.lookup "stratum".toList = some p2 ∧ source.lookup "poll".toList = some p3 ∧
      source.lookup "reach".toList = some p4 ∧ source.lookup "lastrx".toList = some p5 ∧
      source.lookup "raw".toList = some line ∧
      source.lookup "offset".toList = offsetMatch p6 ∧
      source.lookup "delay".toList = offsetMatch p8 := by
  unfold parseSourceLine
  rw [hparts]
  cases h6 : offsetMatch p6 <;> cases h8 : offsetMatch p8 <;>
    simp only [index, bind, Except.bind, pure, Except.pure, h6, h8, List.get?, List.length_cons,
      Nat.le_add_left, if_true] <;>
    exact ⟨_, rfl, rfl, rfl, rfl, rfl, rfl, rfl, rfl, rfl, rfl⟩

theorem sourcesStep_data (line : Str) (source : StrMap)
    (h1 : trimSpace line ≠ []) (h2 : trimSpace line ≠ separatorLine)
    (hsrc : parseSourceLine line = Except.ok (some source)) :
    sourcesStep (true, []) line = Except.ok (true, [source]) := by
  unfold sourcesStep
  simp only [Bool.not_true, Bool.false_eq_true, if_false, h1, h2, or_self, hsrc]
  rfl

/-- C7. The sources parser on a separator line of 79 signs `=` followed by one data
line that is cut into at least nine parts: exactly one record is returned; its state,
name, stratum, poll, reach and lastrx are parts 0 to 5, its raw field is the line
itself, and its offset is the leading text "sign, digits, `ms`" of part 6 when part 6
starts that way and is absent otherwise. -/
theorem parseSourcesOutput_row (line : Str) (hline : '\n' ∉ line)
    (h9 : 9 ≤ (sourceParts line).length) :
    ∃ source : StrMap,
      parseSourcesOutput (separatorLine ++ '\n' :: line) = Except.ok [source] ∧
      source.lookup "state".toList = (sourceParts line).get? 0 ∧
      source.lookup "name".toList = (sourceParts line).get? 1 ∧
      source.lookup "stratum".toList = (sourceParts line).get? 2 ∧
      source.lookup "poll".toList = (sourceParts line).get? 3 ∧
      source.lookup "reach".toList = (sourceParts line).get? 4 ∧
      source.lookup "lastrx".toList = (sourceParts line).get? 5 ∧
      source.lookup "raw".toList = some line ∧
      (∀ (sign : Char) (digits rest : Str), (sign = '+' ∨ sign = '-') → digits ≠ [] →
        (∀ d ∈ digits, d.isDigit = true) →
        (sourceParts line).get? 6 = some (sign :: digits ++ 'm' :: 's' :: rest) →
        source.lookup "offset".toList = some (sign :: digits ++ ['m', 's'])) ∧
      ((¬ ∃ (sign : Char) (digits rest : Str), (sign = '+' ∨ sign = '-') ∧ digits ≠ [] ∧
          (∀ d ∈ digits, d.isDigit = true) ∧
          (sourceParts line).get? 6 = some (sign :: digits ++ 'm' :: 's' :: rest)) →
        source.lookup "offset".toList = none) := by
  obtain ⟨p0, p1, p2, p3, p4, p5, p6, p7, p8, rest, hparts⟩ := exists_nine_parts _ h9
  obtain ⟨source, hsrc, hs0, hs1, hs2, hs3, hs4, hs5, hraw, hoff, _⟩ :=
    parseSourceLine_nine line p0 p1 p2 p3 p4 p5 p6 p7 p8 rest hparts
  have h1 : trimSpace line ≠ [] := by
    intro h
    unfold sourceParts at h9
    rw [h] at h9
    revert h9
    decide
  have h2 : trimSpace line ≠ separatorLine := by
    intro h
    unfold sourceParts at h9
    rw [h] at h9
    revert h9
    decide
  refine ⟨source, ?_, ?_, ?_, ?_, ?_, ?_, ?_, hraw, ?_, ?_⟩
  · unfold parseSourcesOutput
    rw [splitLines_two separatorLine line (by decide) hline]
    have hsep : sourcesStep (false, []) separatorLine = Except.ok (true, []) := by decide
    simp only [List.foldlM, bind, Except.bind, hsep, sourcesStep_data line source h1 h2 hsrc]
    rfl
  · rw [hs0, hparts]; rfl
  · rw [hs1, hparts]; rfl
  · rw [hs2, hparts]; rfl
  · rw [hs3, hparts]; rfl
  · rw [hs4, hparts]; rfl
  · rw [hs5, hparts]; rfl
  · intro sign digits tl hsign hne hdig h6
    rw [hparts] at h6
    have hp6 : p6 = sign :: digits ++ 'm' :: 's' :: tl := Option.some.inj h6
    rw [hoff, hp6, offsetMatch_of_shape sign digits tl hsign hne hdig]
  · intro hno
    rw [hoff]
    cases hm : offsetMatch p6 with
    | none => rfl
    | some m =>
      obtain ⟨sign, digits, tl, hsign, hne, hdig, hp6, _⟩ := offsetMatch_shape p6 m hm
      exact absurd ⟨sign, digits, tl, hsign, hne, hdig, by rw [hparts, hp6]; rfl⟩ hno

/-- Witness of C7: the row of the specification gives state `^*`, name
`202.118.1.130`, stratum `2` and offset `+625ms`. -/
theorem parseSourcesOutput_row_witness :
    '\n' ∉ "^* 202.118.1.130   2   6   377    19   +625ms[ -117ms] +/-   25ms".toList ∧
    9 ≤ (sourceParts
      "^* 202.118.1.130   2   6   377    19   +625ms[ -117ms] +/-   25ms".toList).length ∧
    (∃ source : StrMap,
      parseSourcesOutput (separatorLine ++
        '\n' :: "^* 202.118.1.130   2   6   377    19   +625ms[ -117ms] +/-   25ms".toList)
        = Except.ok [source] ∧
      source.lookup "state".toList = some "^*".toList ∧
      source.lookup "name".toList = some "202.118.1.130".toList ∧
      source.lookup "stratum".toList = some "2".toList ∧
      source.lookup "offset".toList = some "+625ms".toList) := by
  refine ⟨by decide, by decide, ?_⟩
  obtain ⟨source, hres, h0, h1, h2, _, _, _, _, hoff, _⟩ :=
    parseSourcesOutput_row
      "^* 202.118.1.130   2   6   377    19   +625ms[ -117ms] +/-   25ms".toList
      (by decide) (by decide)
  refine ⟨source, hres, ?_, ?_, ?_, ?_⟩
  · rw [h0]; decide
  · rw [h1]; decide
  · rw [h2]; decide
  · exact hoff '+' "625".toList "[".toList (Or.inl rfl) (by decide) (by decide) (by decide)

/-! ## Request handlers: cache invalidation after a mutation -/

theorem forceRefresh_some (c : CachedData Value) :
    forceRefresh (some c) = some { Data := c.Data, Timestamp := 0, TTL := c.TTL } := rfl

theorem restartChrony_caches (w : World) : (restartChrony w).2.caches = w.caches := rfl

theorem writeConf_caches (content : Str) (w : World) :
    (writeConf content w).2.caches = w.caches := by
  unfold writeConf
  split_ifs <;> rfl

theorem updateChronyConfServers_caches (servers : List Str) (w : World) :
    (updateChronyConfServers servers w).2.caches = w.caches := by
  unfold updateChronyConfServers
  cases w.conf with
  | none => rfl
  | some content => exact writeConf_caches _ w

theorem setServerModeStatus_caches (enabled : Bool) (w : World) :
    (setServerModeStatus enabled w).2.caches = w.caches := by
  unfold setServerModeStatus
  cases hc : w.conf with
  | none => rfl
  | some content =>
    cases hw : w.confWritable <;> simp [writeConf, hw, restartChrony]

theorem guard_of_authorised (r : Request) (w : World) (h : authorised r w = true) :
    ∃ claims, r.claims = some claims ∧
      (w.permissionCheckEnabled && !hasPermission claims writePermission) = false := by
  unfold authorised at h
  cases hcl : r.claims with
  | none => rw [hcl] at h; exact absurd h (by simp)
  | some claims =>
    rw [hcl] at h
    refine ⟨claims, rfl, ?_⟩
    cases hg : (w.permissionCheckEnabled && !hasPermission claims writePermission) with
    | false => rfl
    | true => simp only [hg] at h; exact absurd h (by decide)

theorem handleServers_put (r : Request) (w : World) (servers : List Str) (content : Str)
    (hput : r.method = Method.PUT) (hauth : authorised r w = true)
    (hbody : r.serversBody = some servers) (hne : servers ≠ [])
    (hconf : w.conf = some content) (hwr : w.confWritable = true) :
    handleServers r w =
      (Response.setServers servers w.chronydStarts,
        invalidateCaches (restartChrony (writeConf (updateServersContent servers content) w).2).2) := by
  obtain ⟨claims, hcl, hguard⟩ := guard_of_authorised r w hauth
  have hlen : ¬ servers.length = 0 := fun h => hne (List.length_eq_zero.1 h)
  simp [handleServers, hput, hcl, hguard, hbody, hlen, updateChronyConfServers, hconf,
    writeConf, hwr, restartChrony]

theorem handleDefaultServers_put (r : Request) (w : World) (content : Str)
    (hput : r.method = Method.PUT) (hconf : w.conf = some content)
    (hwr : w.confWritable = true) :
    handleDefaultServers r w =
      (Response.setServers [DEFAULT_SERVERS] w.chronydStarts,
        invalidateCaches
          (restartChrony (writeConf (updateServersContent [DEFAULT_SERVERS] content) w).2).2) := by
  simp [handleDefaultServers, hput, updateChronyConfServers, hconf, writeConf, hwr,
    restartChrony]

theorem handleServerMode_put (r : Request) (w : World) (enabled : Bool)
    (hput : r.method = Method.PUT) (hauth : authorised r w = true)
    (hbody : r.modeBody = some enabled) :
    handleServerMode r w =
      (Response.setServerMode (setServerModeStatus enabled w).1 enabled,
        if w.caches.cacheInitialized && w.caches.serverModeCache.isSome then
          { (setServerModeStatus enabled w).2 with
            caches := { w.caches with serverModeCache := forceRefresh w.caches.serverModeCache } }
        else (setServerModeStatus enabled w).2) := by
  obtain ⟨claims, hcl, hguard⟩ := guard_of_authorised r w hauth
  simp only [handleServerMode, hput, hcl, hguard, hbody, setServerModeStatus_caches]
  rfl

theorem writeConf_clock (content : Str) (w : World) :
    (writeConf content w).2.clock = w.clock ∧
    (writeConf content w).2.clockReads = w.clockReads := by
  unfold writeConf
  split_ifs <;> exact ⟨rfl, rfl⟩

theorem setServerModeStatus_clock (enabled : Bool) (w : World) :
    (setServerModeStatus enabled w).2.clock = w.clock ∧
    (setServerModeStatus enabled w).2.clockReads = w.clockReads := by
  unfold setServerModeStatus
  cases hc : w.conf with
  | none => exact ⟨rfl, rfl⟩
  | some content =>
    cases hw : w.confWritable <;> simp [writeConf, hw, restartChrony]

/-- A world whose caches were all force-refreshed: every entry kept its value and TTL,
has the zero timestamp, and the next `Get` on it calls the producer once. -/
theorem refreshed_entry (w w1 : World) (id : CacheId) (c : CachedData Value)
    (fetchData : World → Value × World)
    (hget : w1.caches.get id = forceRefresh (w.caches.get id))
    (hclock : w1.clock = w.clock ∧ w1.clockReads = w.clockReads)
    (hc : w.caches.get id = some c) (httl : c.TTL ≤ maxDuration)
    (hlate : maxDuration ≤ w.clock w.clockReads)
    (hmono : w.clock w.clockReads ≤ w.clock (w.clockReads + 1)) :
    w1.caches.get id = some { Data := c.Data, Timestamp := 0, TTL := c.TTL } ∧
    ((CachedData.mk c.Data 0 c.TTL).Get readClock fetchData w1).calls = 1 := by
  refine ⟨by rw [hget, hc]; rfl, ?_⟩
  exact (Get_of_never fetchData (CachedData.mk c.Data 0 c.TTL) w1 rfl httl
    (by rw [hclock.1, hclock.2]; exact hlate) (by rw [hclock.1, hclock.2]; exact hmono)).1

/-- C5, evaluated: on the sample world, whose caches are initialised and fresh, an
authorised `PUT /server-mode` rewrites the configuration file and runs the restart
(which fails), and afterwards the tracking, sources, activity and clients caches still
hold their old, non-zero timestamp: unlike `PUT /servers`, `DELETE /servers` and
`PUT /servers/default`, this path does not call `invalidateCaches`. -/
theorem handleServerMode_keeps_other_caches :
    authorised samplePut sampleWorld = true ∧
    (handleServerMode samplePut sampleWorld).1 = Response.setServerMode false true ∧
    (handleServerMode samplePut sampleWorld).2.conf
      = some "pool 2.pool.ntp.org iburst\nserver old.example iburst\nallow 0.0.0.0/0".toList ∧
    (handleServerMode samplePut sampleWorld).2.caches.get CacheId.tracking
      = some (sampleEntry (30 * second)) ∧
    (handleServerMode samplePut sampleWorld).2.caches.get CacheId.sources
      = some (sampleEntry (30 * second)) ∧
    (handleServerMode samplePut sampleWorld).2.caches.get CacheId.activity
      = some (sampleEntry (30 * second)) ∧
    (handleServerMode samplePut sampleWorld).2.caches.get CacheId.clients
      = some (sampleEntry (30 * second)) ∧
    (sampleEntry (30 * second)).Timestamp ≠ 0 := by
  refine ⟨?_, ?_, ?_, ?_, ?_, ?_, ?_, ?_⟩ <;> decide

/-- What each mutating `PUT` path does to the caches, with the caches initialised and
the configuration file readable and writable: after `PUT /servers` (authorised, with a
non-empty list) and after `PUT /servers/default`, each of the five caches has the zero
timestamp with its value and TTL kept, whatever the outcome of the restart, and the
next `Get` on it calls its producer once; after an authorised `PUT /server-mode` this
holds of the server-mode cache only, the four other caches being left as they were. -/
theorem mutation_invalidates_caches (r : Request) (w : World) (content : Str)
    (hput : r.method = Method.PUT) (hinit : w.caches.cacheInitialized = true)
    (hconf : w.conf = some content) (hwr : w.confWritable = true)
    (hlate : maxDuration ≤ w.clock w.clockReads)
    (hmono : w.clock w.clockReads ≤ w.clock (w.clockReads + 1)) :
    (∀ servers : List Str, authorised r w = true → r.serversBody = some servers →
      servers ≠ [] →
      ∀ (id : CacheId) (c : CachedData Value) (fetchData : World → Value × World),
        w.caches.get id = some c → c.TTL ≤ maxDuration →
        (handleServers r w).2.caches.get id
          = some { Data := c.Data, Timestamp := 0, TTL := c.TTL } ∧
        ((CachedData.mk c.Data 0 c.TTL).Get readClock fetchData (handleServers r w).2).calls
          = 1) ∧
    (∀ (id : CacheId) (c : CachedData Value) (fetchData : World → Value × World),
        w.caches.get id = some c → c.TTL ≤ maxDuration →
        (handleDefaultServers r w).2.caches.get id
          = some { Data := c.Data, Timestamp := 0, TTL := c.TTL } ∧
        ((CachedData.mk c.Data 0 c.TTL).Get readClock fetchData
          (handleDefaultServers r w).2).calls = 1) ∧
    (∀ enabled : Bool, authorised r w = true → r.modeBody = some enabled →
      (∀ (c : CachedData Value) (fetchData : World → Value × World),
        w.caches.get CacheId.serverMode = some c → c.TTL ≤ maxDuration →
        (handleServerMode r w).2.caches.get CacheId.serverMode
          = some { Data := c.Data, Timestamp := 0, TTL := c.TTL } ∧
        ((CachedData.mk c.Data 0 c.TTL).Get readClock fetchData
          (handleServerMode r w).2).calls = 1) ∧
      ∀ id : CacheId, id ≠ CacheId.serverMode →
        (handleServerMode r w).2.caches.get id = w.caches.get id) := by
  refine ⟨?_, ?_, ?_⟩
  · intro servers hauth hbody hne id c fetchData hc httl
    rw [handleServers_put r w servers content hput hauth hbody hne hconf hwr]
    refine refreshed_entry w _ id c fetchData ?_ ?_ hc httl hlate hmono
    · rw [invalidateCaches_get _ id (by simp [restartChrony, writeConf, hwr, hinit])]
      simp [restartChrony, writeConf, hwr]
    · refine ⟨?_, ?_⟩
      · rw [(invalidateCaches_rest _).2.2.1]; simp [restartChrony, writeConf, hwr]
      · rw [(invalidateCaches_rest _).2.2.2]; simp [restartChrony, writeConf, hwr]
  · intro id c fetchData hc httl
    rw [handleDefaultServers_put r w content hput hconf hwr]
    refine refreshed_entry w _ id c fetchData ?_ ?_ hc httl hlate hmono
    · rw [invalidateCaches_get _ id (by simp [restartChrony, writeConf, hwr, hinit])]
      simp [restartChrony, writeConf, hwr]
    · refine ⟨?_, ?_⟩
      · rw [(invalidateCaches_rest _).2.2.1]; simp [restartChrony, writeConf, hwr]
      · rw [(invalidateCaches_rest _).2.2.2]; simp [restartChrony, writeConf, hwr]
  · intro enabled hauth hbody
    rw [handleServerMode_put r w enabled hput hauth hbody]
    refine ⟨?_, ?_⟩
    · intro c fetchData hc httl
      have hsome : w.caches.serverModeCache = some c := hc
      refine refreshed_entry w _ CacheId.serverMode c fetchData ?_ ?_ hc httl hlate hmono
      · simp [hinit, hsome, Caches.get]
      · simp [hinit, hsome, setServerModeStatus_clock]
    · intro id hid
      cases hs : w.caches.serverModeCache with
      | none =>
        simp only [hinit, hs, Option.isSome_none, Bool.and_false, Bool.false_eq_true, if_false,
          setServerModeStatus_caches]
      | some c0 =>
        cases id <;> simp [Caches.get, hinit, hs] at hid ⊢

/-- The cache resets of `PUT /servers` and `PUT /server-mode` on the sample world and the
sample authorised request. -/
theorem mutation_invalidates_caches_witness :
    samplePut.method = Method.PUT ∧ sampleWorld.caches.cacheInitialized = true ∧
    sampleWorld.confWritable = true ∧
    maxDuration ≤ sampleWorld.clock sampleWorld.clockReads ∧
    sampleWorld.clock sampleWorld.clockReads ≤ sampleWorld.clock (sampleWorld.clockReads + 1) ∧
    (handleServers samplePut sampleWorld).2.caches.get CacheId.tracking
      = some { Data := Value.flag false, Timestamp := 0, TTL := 30 * second } ∧
    (handleServerMode samplePut sampleWorld).2.caches.get CacheId.serverMode
      = some { Data := Value.flag false, Timestamp := 0, TTL := 5 * second } :=
  ⟨rfl, rfl, rfl, by decide, by decide,
    ((mutation_invalidates_caches samplePut sampleWorld _ rfl rfl rfl rfl (by decide)
      (by decide)).1 _ (by decide) rfl (by decide) CacheId.tracking
      (sampleEntry (30 * second)) fetchServerMode rfl (by decide)).1,
    (((mutation_invalidates_caches samplePut sampleWorld _ rfl rfl rfl rfl (by decide)
      (by decide)).2.2 true (by decide) rfl).1 (sampleEntry (5 * second)) fetchServerMode rfl
      (by decide)).1⟩

/-! ## Request handlers: authorization -/

/-- The guarded handlers: a `PUT` or `DELETE` request that fails claim extraction, or
lacks the permission while permissions are checked, is refused by `handleServers` and
`handleServerMode` with status 401 or 403 and the world is left untouched. -/
theorem guarded_handlers_refuse (r : Request) (w : World)
    (hm : r.method = Method.PUT ∨ r.method = Method.DELETE)
    (hauth : authorised r w = false) :
    ((handleServers r w).1 = Response.error 401 ∨ (handleServers r w).1 = Response.error 403) ∧
    (handleServers r w).2 = w ∧ (handleServerMode r w).2 = w := by
  unfold authorised at hauth
  cases hcl : r.claims with
  | none =>
    rcases hm with hm | hm <;> simp [handleServers, handleServerMode, hm, hcl]
  | some claims =>
    rw [hcl] at hauth
    have hguard : (w.permissionCheckEnabled && !hasPermission claims writePermission) = true := by
      simpa using hauth
    rcases hm with hm | hm <;> simp [handleServers, handleServerMode, hm, hcl, hguard]

/-- C6, evaluated: `handleDefaultServers` has no guard.  On the sample world a
`PUT /servers/default` whose claim extraction fails is answered with the success reply,
after the configuration file was rewritten, `pkill chronyd` and `chronyd` were run and
the caches were invalidated. -/
theorem handleDefaultServers_unguarded :
    sampleAnonymousPut.claims = none ∧ authorised sampleAnonymousPut sampleWorld = false ∧
    (handleDefaultServers sampleAnonymousPut sampleWorld).1
      = Response.setServers [DEFAULT_SERVERS] false ∧
    (handleDefaultServers sampleAnonymousPut sampleWorld).2.trace
      = [Effect.writeConf
          "pool 2.pool.ntp.org iburst\n#allow 0.0.0.0/0\nserver pool.ntp.org iburst\n".toList,
         Effect.pkill, Effect.startChronyd] ∧
    (handleDefaultServers sampleAnonymousPut sampleWorld).2.conf
      = some "pool 2.pool.ntp.org iburst\n#allow 0.0.0.0/0\nserver pool.ntp.org iburst\n".toList ∧
    (handleDefaultServers sampleAnonymousPut sampleWorld).2.caches.get CacheId.tracking
      = some { Data := Value.flag false, Timestamp := 0, TTL := 30 * second } ∧
    (handleServers sampleAnonymousPut sampleWorld).1 = Response.error 401 ∧
    (handleServers sampleAnonymousPut sampleWorld).2.trace = [] := by
  refine ⟨?_, ?_, ?_, ?_, ?_, ?_, ?_, ?_⟩ <;> decide

/-! ## Tracking parser -/

theorem contains_colon (line : Str) : contains line ":".toList = true ↔ ':' ∈ line := by
  induction line with
  | nil => simp [contains, String.toList]
  | cons c cs ih =>
    have h : contains (c :: cs) ":".toList = ((':' == c) || contains cs ":".toList) := by
      simp [contains, String.toList, List.isPrefixOf]
    rw [h, Bool.or_eq_true, ih, List.mem_cons]
    simp

theorem cutAtFirst_colon (line : Str) :
    cutAtFirst ':' line =
      if ':' ∈ line then
        some (line.takeWhile (fun c => c != ':'), (line.dropWhile (fun c => c != ':')).drop 1)
      else none := by
  induction line with
  | nil => simp [cutAtFirst]
  | cons c cs ih =>
    unfold cutAtFirst
    by_cases hc : c = ':'
    · simp [hc]
    · have hne : ¬ ':' = c := fun h => hc h.symm
      rw [if_neg hc, ih]
      by_cases hmem : ':' ∈ cs
      · simp [hmem, hc, hne, List.takeWhile_cons, List.dropWhile_cons]
      · simp [hmem, hc, hne]

theorem ite_key_self (result : StrMap) (key value name : Str) (other : StrMap)
    (h : other = mapSet result key value) :
    (if key = name then mapSet result name value else other) = mapSet result key value := by
  by_cases hk : key = name
  · rw [if_pos hk, hk]
  · rw [if_neg hk, h]

theorem trackingAssign_eq (result : StrMap) (key value : Str) :
    trackingAssign result key value =
      (if key = "Reference ID".toList then [("ReferenceID".toList, value)]
        else if key = "Update interval".toList then
          [("Update interval".toList, value), ("UpdateRate".toList, value)]
        else if key = "Leap status".toList then
          [("Leap status".toList, value), ("LeapStatus".toList, value)]
        else [(key, value)]).foldl (fun m entry => mapSet m entry.1 entry.2) result := by
  unfold trackingAssign
  by_cases h1 : key = "Reference ID".toList
  · rw [if_pos h1, if_pos h1]
    rfl
  · rw [if_neg h1, if_neg h1]
    by_cases h2 : key = "Update interval".toList
    · rw [if_pos h2, h2]
      rfl
    · by_cases h3 : key = "Leap status".toList
      · rw [h3]
        rfl
      · simp only [h2, h3, if_false]
        show _ = mapSet result key value
        iterate 10 refine ite_key_self result key value _ _ ?_
        rfl

theorem trackingStep_eq (result : StrMap) (line : Str) :
    trackingStep result line
      = (trackingEntries line).foldl (fun m entry => mapSet m entry.1 entry.2) result := by
  unfold trackingStep trackingEntries splitColon2
  by_cases hmem : ':' ∈ line
  · rw [if_pos ((contains_colon line).2 hmem), cutAtFirst_colon, if_pos hmem, if_pos hmem]
    exact trackingAssign_eq _ _ _
  · have hc : ¬ contains line ":".toList = true := fun h => hmem ((contains_colon line).1 h)
    rw [if_neg hc, if_neg hmem]
    rfl

/-- C11. The tracking parser equals its line-by-line definition: for every input,
`parseTrackingOutput` returns the record obtained by processing the lines in order,
where a line without a colon contributes nothing and a line with a colon contributes
the trimmed text after the first colon under the trimmed text before it, with
`Reference ID` stored as `ReferenceID`, `Update interval` stored under itself and under
`UpdateRate`, `Leap status` stored under itself and under `LeapStatus`, every other
name stored under itself, and a later entry replacing an earlier one with the same
key. -/
theorem parseTrackingOutput_eq_trackingRecord (output : Str) :
    parseTrackingOutput output = trackingRecord output := by
  unfold parseTrackingOutput trackingRecord
  have hstep : trackingStep = fun record line =>
      (trackingEntries line).foldl (fun m entry => mapSet m entry.1 entry.2) record := by
    funext record line
    exact trackingStep_eq record line
  rw [hstep]

/-! ## Server list: the other lines are preserved -/

theorem serverLine_no_newline_of (s : Str) (hs : '\n' ∉ s) :
    '\n' ∉ "server ".toList ++ s ++ " iburst".toList := by
  intro hmem
  rw [serverLine_eq] at hmem
  simp [hs] at hmem

theorem splitLines_written (servers : List Str) (content : Str)
    (h : ∀ s ∈ servers, '\n' ∉ s) :
    splitLines (updateServersContent servers content)
      = (splitLines content).filter (fun line => !hasPrefix (trimSpace line) "server ".toList)
        ++ servers.map (fun server => "server ".toList ++ server ++ " iburst".toList)
        ++ [[]] := by
  unfold updateServersContent
  apply splitLines_joinLines
  · simp
  · intro l hl
    rcases List.mem_append.1 hl with hl | hl
    · rcases List.mem_append.1 hl with hl | hl
      · exact splitLines_no_newline content l (List.mem_filter.1 hl).1
      · obtain ⟨s, hs, rfl⟩ := List.mem_map.1 hl
        exact serverLine_no_newline_of s (h s hs)
    · rw [List.mem_singleton.1 hl]; simp

/-- C13, counterexample: a name that holds a line feed.  On the sample world the list
with the single name `a⏎b` is written as the two lines `server a` and `b iburst`, so
the lines of the written file are not the kept lines followed by one line per name and
an empty line. -/
theorem updateChronyConfServers_line_feed :
    (updateChronyConfServers ["a\nb".toList] sampleWorld).2.conf
      = some "pool 2.pool.ntp.org iburst\n#allow 0.0.0.0/0\nserver a\nb iburst\n".toList ∧
    splitLines "pool 2.pool.ntp.org iburst\n#allow 0.0.0.0/0\nserver a\nb iburst\n".toList
      = ["pool 2.pool.ntp.org iburst".toList, "#allow 0.0.0.0/0".toList, "server a".toList,
          "b iburst".toList, []] ∧
    splitLines "pool 2.pool.ntp.org iburst\n#allow 0.0.0.0/0\nserver a\nb iburst\n".toList
      ≠ (splitLines
            "pool 2.pool.ntp.org iburst\nserver old.example iburst\n#allow 0.0.0.0/0".toList).filter
          (fun line => !hasPrefix (trimSpace line) "server ".toList)
        ++ ["a\nb".toList].map (fun server => "server ".toList ++ server ++ " iburst".toList)
        ++ [[]] := by
  refine ⟨?_, ?_, ?_⟩ <;> decide

/-- C13, amended.  For every content of a readable and writable configuration file and
every server list whose names hold no line feed, the lines of the file written by
`updateChronyConfServers` are exactly the original lines that are not server
directives (lines that, once trimmed, do not start with `server `), unmodified and in
their original order, followed by one line `server <host> iburst` per name in list
order, followed by one empty line; none of the lines kept is a server directive. -/
theorem updateChronyConfServers_lines (w : World) (content : Str) (servers : List Str)
    (hconf : w.conf = some content) (hwr : w.confWritable = true)
    (hnames : ∀ s ∈ servers, '\n' ∉ s) :
    (updateChronyConfServers servers w).2.conf = some (updateServersContent servers content) ∧
    splitLines (updateServersContent servers content)
      = (splitLines content).filter (fun line => !hasPrefix (trimSpace line) "server ".toList)
        ++ servers.map (fun server => "server ".toList ++ server ++ " iburst".toList)
        ++ [[]] ∧
    (∀ line ∈ (splitLines content).filter
        (fun line => !hasPrefix (trimSpace line) "server ".toList),
      line ∈ splitLines content ∧ hasPrefix (trimSpace line) "server ".toList = false) := by
  refine ⟨?_, splitLines_written servers content hnames, ?_⟩
  · simp [updateChronyConfServers, hconf, writeConf, hwr]
  · intro line hl
    have := List.mem_filter.1 hl
    exact ⟨this.1, by simpa using this.2⟩

/-- Witness of C13, amended: the sample world and the names `a.example`, `b.example`. -/
theorem updateChronyConfServers_lines_witness :
    (∀ s ∈ ["a.example".toList, "b.example".toList], '\n' ∉ s) ∧
    splitLines (updateServersContent ["a.example".toList, "b.example".toList]
        "pool 2.pool.ntp.org iburst\nserver old.example iburst\n#allow 0.0.0.0/0".toList)
      = ["pool 2.pool.ntp.org iburst".toList, "#allow 0.0.0.0/0".toList,
          "server a.example iburst".toList, "server b.example iburst".toList, []] := by
  refine ⟨by decide, ?_⟩
  rw [(updateChronyConfServers_lines sampleWorld _ ["a.example".toList, "b.example".toList]
    rfl rfl (by decide)).2.1]
  decide

/-! ## Server mode: reading after writing -/

theorem getServerModeStatus_eq (w : World) (content : Str) (h : w.conf = some content) :
    getServerModeStatus w = (splitLines content).any startsAllow := by
  unfold getServerModeStatus
  rw [h]
  rfl

theorem splitLines_serverModeContent (enabled : Bool) (content : Str) :
    splitLines (serverModeContent enabled content)
      = serverModeLines enabled (splitLines content) := by
  rw [serverModeContent_eq,
    splitLines_joinLines _ (serverModeLines_ne_nil _ _ (splitLines_ne_nil content))
      (serverModeLines_no_newline _ _ (splitLines_no_newline content))]

theorem serverModeLine_eq (enabled : Bool) (line : Str) :
    serverModeLine enabled line =
      if mentionsAllowAll line then
        if enabled then
          if commented line then "allow 0.0.0.0/0".toList else line
        else
          if commented line then line else "#allow 0.0.0.0/0".toList
      else line := by
  simp only [serverModeLine, mentionsAllowAll, serverModeStep, commented]
  split_ifs <;> simp_all

theorem not_startsAllow_of_commented (line : Str) (h : commented line = true) :
    startsAllow line = false := by
  unfold commented hasPrefix at h
  unfold startsAllow hasPrefix
  cases ht : trimSpace line with
  | nil => simp
  | cons c cs =>
    rw [ht] at h
    have hc : c = '#' := by
      simp [String.toList, List.isPrefixOf] at h
      exact h.symm
    rw [hc]
    simp [String.toList, List.isPrefixOf]

theorem any_startsAllow_off (lines : List Str)
    (h : ∀ line ∈ lines, startsAllow line = true → mentionsAllowAll line = true) :
    (serverModeLines false lines).any startsAllow = false := by
  have hline : ∀ line ∈ lines, startsAllow (serverModeLine false line) = false := by
    intro line hl
    rw [serverModeLine_eq]
    by_cases hm : mentionsAllowAll line = true
    · by_cases hc : commented line = true
      · simp only [hm, hc, if_true, Bool.false_eq_true, if_false]
        exact not_startsAllow_of_commented line hc
      · simp only [hm, hc, if_true, Bool.false_eq_true, if_false]
        decide
    · have hm2 : mentionsAllowAll line = false := by simpa using hm
      simp only [hm2, Bool.false_eq_true, if_false]
      cases hs : startsAllow line with
      | false => rfl
      | true => exact absurd (h line hl hs) hm
  unfold serverModeLines
  simp only [Bool.false_and, Bool.false_eq_true, if_false]
  rw [List.any_eq_false]
  intro x hx
  obtain ⟨line, hl, rfl⟩ := List.mem_map.1 hx
  simp [hline line hl]

theorem any_startsAllow_on (lines : List Str)
    (h : ∀ line ∈ lines, mentionsAllowAll line = true →
      startsAllow line = true ∨ commented line = true) :
    (serverModeLines true lines).any startsAllow = true := by
  unfold serverModeLines
  cases hany : lines.any mentionsAllowAll with
  | false =>
    simp only [Bool.not_false, Bool.and_self, if_true, List.any_append, List.any_cons,
      show startsAllow "allow 0.0.0.0/0".toList = true by decide, Bool.true_or, Bool.or_true]
  | true =>
    simp only [Bool.not_true, Bool.and_false, Bool.false_eq_true, if_false]
    obtain ⟨line, hl, hm⟩ := List.any_eq_true.1 hany
    rw [List.any_eq_true]
    refine ⟨serverModeLine true line, List.mem_map.2 ⟨line, hl, rfl⟩, ?_⟩
    rw [serverModeLine_eq]
    by_cases hc : commented line = true
    · simp only [hm, hc, if_true]
      decide
    · simp only [hm, hc, if_true, Bool.false_eq_true, if_false]
      rcases h line hl hm with hs | hc2
      · exact hs
      · exact absurd hc2 hc

/-- C15, counterexample.  Disabling: on a file with the rules `allow 192.168.0.0/16`
and `allow 0.0.0.0/0`, an authorised `PUT /server-mode` with `enabled = false` comments
out the second rule only, reports `server_mode_enabled = false`, and
`getServerModeStatus` on the written file returns `true`.  Enabling: on a file whose
only line is `cmdallow 0.0.0.0/0`, the request with `enabled = true` leaves the file as
it is, reports `true`, and `getServerModeStatus` returns `false`. -/
theorem handleServerMode_read_differs :
    (handleServerMode samplePutOff sampleLanWorld).1 = Response.setServerMode true false ∧
    (handleServerMode samplePutOff sampleLanWorld).2.conf
      = some "allow 192.168.0.0/16\n#allow 0.0.0.0/0".toList ∧
    getServerModeStatus (handleServerMode samplePutOff sampleLanWorld).2 = true ∧
    (handleServerMode samplePut sampleCmdWorld).1 = Response.setServerMode true true ∧
    (handleServerMode samplePut sampleCmdWorld).2.conf = some "cmdallow 0.0.0.0/0".toList ∧
    getServerModeStatus (handleServerMode samplePut sampleCmdWorld).2 = false := by
  refine ⟨?_, ?_, ?_, ?_, ?_, ?_⟩ <;> decide

theorem handleServerMode_conf (r : Request) (w : World) (enabled : Bool)
    (hput : r.method = Method.PUT) (hauth : authorised r w = true)
    (hbody : r.modeBody = some enabled) :
    (handleServerMode r w).2.conf = (setServerModeStatus enabled w).2.conf := by
  rw [handleServerMode_put r w enabled hput hauth hbody]
  simp only
  split_ifs <;> rfl

/-- C15, amended.  For an authorised `PUT /server-mode` request with flag `enabled` on
a readable and writable configuration file: the response reports `enabled`, and
`getServerModeStatus` on the written file returns `enabled`, provided that, when
disabling, every line of the original file that counts as an allow rule mentions
`allow 0.0.0.0/0`, and, when enabling, every line of the original file that mentions
`allow 0.0.0.0/0` counts as an allow rule or is commented.  Then after disabling no
line that counts as an allow rule remains, and after enabling at least one exists. -/
theorem handleServerMode_read_after_write (r : Request) (w : World) (content : Str)
    (enabled : Bool) (hput : r.method = Method.PUT) (hauth : authorised r w = true)
    (hbody : r.modeBody = some enabled)
    (hconf : w.conf = some content) (hwr : w.confWritable = true)
    (hoff : enabled = false → ∀ line ∈ splitLines content,
      startsAllow line = true → mentionsAllowAll line = true)
    (hon : enabled = true → ∀ line ∈ splitLines content,
      mentionsAllowAll line = true → startsAllow line = true ∨ commented line = true) :
    (handleServerMode r w).1 = Response.setServerMode (setServerModeStatus enabled w).1 enabled ∧
    (handleServerMode r w).2.conf = some (serverModeContent enabled content) ∧
    getServerModeStatus (handleServerMode r w).2 = enabled ∧
    (enabled = false →
      ∀ line ∈ splitLines (serverModeContent enabled content), startsAllow line = false) ∧
    (enabled = true →
      ∃ line ∈ splitLines (serverModeContent enabled content), startsAllow line = true) := by
  have hc : (handleServerMode r w).2.conf = some (serverModeContent enabled content) := by
    rw [handleServerMode_conf r w enabled hput hauth hbody,
      (setServerModeStatus_conf enabled w).2, hconf]
    simp [hwr]
  have hany : (splitLines (serverModeContent enabled content)).any startsAllow = enabled := by
    rw [splitLines_serverModeContent]
    cases enabled with
    | false => exact any_startsAllow_off _ (hoff rfl)
    | true => exact any_startsAllow_on _ (hon rfl)
  refine ⟨?_, hc, ?_, ?_, ?_⟩
  · rw [handleServerMode_put r w enabled hput hauth hbody]
  · rw [getServerModeStatus_eq _ _ hc, hany]
  · intro he line hl
    rw [he] at hany hl
    have := List.any_eq_false.1 hany line hl
    simpa using this
  · intro he
    obtain ⟨line, hl, hs⟩ := List.any_eq_true.1 (hany.trans he)
    exact ⟨line, hl, hs⟩

/-- Witness of C15, amended: enabling on the sample world, whose file holds the
commented rule `#allow 0.0.0.0/0`. -/
theorem handleServerMode_read_after_write_witness :
    authorised samplePut sampleWorld = true ∧
    (∀ line ∈ splitLines
        "pool 2.pool.ntp.org iburst\nserver old.example iburst\n#allow 0.0.0.0/0".toList,
      mentionsAllowAll line = true → startsAllow line = true ∨ commented line = true) ∧
    getServerModeStatus (handleServerMode samplePut sampleWorld).2 = true ∧
    (handleServerMode samplePut sampleWorld).2.conf
      = some "pool 2.pool.ntp.org iburst\nserver old.example iburst\nallow 0.0.0.0/0".toList :=
  ⟨by decide, by decide,
    (handleServerMode_read_after_write samplePut sampleWorld _ true rfl (by decide) rfl rfl rfl
      (fun h => absurd h (by decide)) (fun _ => by decide)).2.2.1,
    by decide⟩

/-! ## Status aggregator -/

/-- With a producer that does not panic, `GetOrPanic` is `Get`. -/
theorem GetOrPanic_of_total {α W : Type} (now : W → Int × W) (produce : W → α × W)
    (c : CachedData α) (w : W) :
    c.GetOrPanic now (fun w0 => (Except.ok (produce w0).1, (produce w0).2)) w
      = Except.ok (c.Get now produce w) := by
  unfold CachedData.GetOrPanic CachedData.Get
  simp only
  split_ifs <;> rfl

theorem statusFlags_of_unparsable (flagStr : Str) (h : atoi flagStr = none) :
    statusFlags flagStr = STATUS_ALL := by
  unfold statusFlags
  rw [h]
  split_ifs <;> rfl

theorem statusPart_skip (flags mask : Int) (id : CacheId) (key : Str)
    (convert : Value → Value) (acc : Except Panic (List (Str × Value)) × World)
    (h : hasBit flags mask = false) : statusPart flags mask id key convert acc = acc := by
  unfold statusPart
  rcases acc with ⟨_ | response, w⟩ <;> simp [h]

theorem statusPart_ok (flags mask : Int) (id : CacheId) (key : Str)
    (convert : Value → Value) (acc : Except Panic (List (Str × Value)) × World)
    (entries : List (Str × Value)) (h : hasBit flags mask = true)
    (hok : (statusPart flags mask id key convert acc).1 = Except.ok entries) :
    ∃ before value, acc.1 = Except.ok before ∧ entries = before ++ [(key, value)] := by
  unfold statusPart at hok
  rcases acc with ⟨p | response, w⟩
  · simp at hok
  · simp only [h, if_true] at hok
    rcases hget : cacheGet id w with ⟨p | data, w1⟩
    · rw [hget] at hok
      simp at hok
    · rw [hget] at hok
      simp only at hok
      exact ⟨response, convert data, rfl, (Except.ok.inj hok).symm⟩

theorem handleStatus_of_flags (r1 r2 : Request) (w : World)
    (hm : r1.method = r2.method) (hf : statusFlags r1.flags = statusFlags r2.flags) :
    handleStatus r1 w = handleStatus r2 w := by
  unfold handleStatus
  rw [hm, hf]

theorem handleStatus_all_keys (r : Request) (w : World) (entries : List (Str × Value))
    (hall : statusFlags r.flags = STATUS_ALL)
    (hok : (handleStatus r w).1 = Response.status entries) :
    entries.map Prod.fst = statusKeys := by
  unfold handleStatus at hok
  by_cases hget : r.method = Method.GET
  · simp only [hget, ne_eq, not_true_eq_false, if_false, hall] at hok
    generalize hacc5 : statusPart STATUS_ALL STATUS_SERVER_MODE CacheId.serverMode
      "server_mode_enabled".toList asFlag _ = acc5 at hok
    rcases acc5 with ⟨p | response, w5⟩
    · simp at hok
    · simp only at hok
      have he : response = entries := Response.status.inj hok
      have h5 := congrArg Prod.fst hacc5
      simp only at h5
      obtain ⟨e4, v5, h4, rfl⟩ := statusPart_ok _ _ _ _ _ _ response (by decide) h5
      obtain ⟨e3, v4, h3, rfl⟩ := statusPart_ok _ _ _ _ _ _ e4 (by decide) h4
      obtain ⟨e2, v3, h2, rfl⟩ := statusPart_ok _ _ _ _ _ _ e3 (by decide) h3
      obtain ⟨e1, v2, h1, rfl⟩ := statusPart_ok _ _ _ _ _ _ e2 (by decide) h2
      obtain ⟨e0, v1, h0, rfl⟩ := statusPart_ok _ _ _ _ _ _ e1 (by decide) h1
      have h00 : e0 = [] := (Except.ok.inj h0).symm
      rw [← he, h00]
      rfl
  · simp [hget] at hok

/-- C12, counterexample: the values `0` and `32` of `flags` are decimal integers with
none of the five category bits set; `handleStatus` uses them as the mask, reads no
cache and answers with the empty mapping, which holds none of the five keys. -/
theorem handleStatus_no_category_bit :
    atoi "0".toList = some 0 ∧ atoi "32".toList = some 32 ∧
    (handleStatus (statusRequest "0".toList) sampleWorld).1 = Response.status [] ∧
    (handleStatus (statusRequest "32".toList) sampleWorld).1 = Response.status [] ∧
    (handleStatus (statusRequest "0".toList) sampleWorld).2.clockReads
      = sampleWorld.clockReads := by
  refine ⟨?_, ?_, ?_, ?_, ?_⟩ <;> decide

/-- C12, amended.  For a `GET /status` request: when the `flags` parameter is absent or
is not parsed by `strconv.Atoi`, the handler behaves as for `flags=31` (all), and a
response mapping, when the handler returns one, holds exactly the five keys `tracking`,
`sources`, `activity`, `clients` and `server_mode_enabled`; when the parameter is
parsed, the integer is used as the mask as it is, so that an integer with none of the
five category bits set is answered with the empty mapping, no cache being read. -/
theorem handleStatus_flags (r : Request) (w : World) (hget : r.method = Method.GET) :
    (atoi r.flags = none →
      handleStatus r w = handleStatus (statusRequest "31".toList) w ∧
      handleStatus r w = handleStatus (statusRequest []) w ∧
      ∀ entries : List (Str × Value), (handleStatus r w).1 = Response.status entries →
        entries.map Prod.fst = statusKeys) ∧
    (∀ parsed : Int, r.flags ≠ [] → atoi r.flags = some parsed →
      hasBit parsed STATUS_TRACKING = false → hasBit parsed STATUS_SOURCES = false →
      hasBit parsed STATUS_ACTIVITY = false → hasBit parsed STATUS_CLIENTS = false →
      hasBit parsed STATUS_SERVER_MODE = false →
      handleStatus r w = (Response.status [], initializeCaches w)) := by
  refine ⟨fun hnone => ⟨?_, ?_, ?_⟩, ?_⟩
  · exact handleStatus_of_flags r _ w hget
      (by rw [statusFlags_of_unparsable _ hnone]; decide)
  · exact handleStatus_of_flags r _ w hget
      (by rw [statusFlags_of_unparsable _ hnone]; decide)
  · intro entries hok
    exact handleStatus_all_keys r w entries (statusFlags_of_unparsable _ hnone) hok
  · intro parsed hne hparse h1 h2 h3 h4 h5
    have hflags : statusFlags r.flags = parsed := by
      unfold statusFlags
      rw [if_pos hne, hparse]
    unfold handleStatus
    simp only [hget, ne_eq, not_true_eq_false, if_false, hflags]
    rw [statusPart_skip _ _ _ _ _ _ h1, statusPart_skip _ _ _ _ _ _ h2,
      statusPart_skip _ _ _ _ _ _ h3, statusPart_skip _ _ _ _ _ _ h4,
      statusPart_skip _ _ _ _ _ _ h5]

/-- Witness of C12, amended: at start-up, `flags=abc` is answered with the five keys,
each cache being refreshed from a `chronyc` that prints nothing. -/
theorem handleStatus_flags_witness :
    (statusRequest "abc".toList).method = Method.GET ∧
    atoi (statusRequest "abc".toList).flags = none ∧
    (handleStatus (statusRequest "abc".toList) sampleStartWorld).1
      = Response.status [("tracking".toList, Value.mapping []),
          ("sources".toList, Value.records []), ("activity".toList, Value.mapping []),
          ("clients".toList, Value.records []),
          ("server_mode_enabled".toList, Value.flag false)] ∧
    handleStatus (statusRequest "abc".toList) sampleStartWorld
      = handleStatus (statusRequest "31".toList) sampleStartWorld :=
  ⟨rfl, by decide, by decide,
    ((handleStatus_flags (statusRequest "abc".toList) sampleStartWorld rfl).1 (by decide)).1⟩

end ClockService
